import Mathlib

/-!
Verification development for the Threejs PCB engine.

The TypeScript sources are shallowly embedded: every store becomes a
structure with explicit state passing, JavaScript `Map` objects become
insertion-ordered association lists, numbers become rationals (reals only
where the code genuinely computes square roots or arc tangents), and all
side effects (GPU buffer writes, shader uniform writes, dispose calls)
become explicit components of the state or an emitted event log.
-/

set_option linter.unusedVariables false

/-! ## Insertion-ordered maps (JavaScript `Map` semantics)

A JavaScript `Map` keeps entries in insertion order; `set` on an existing
key replaces the value in place, `set` on a fresh key appends, `delete`
removes the unique entry with that key.  We model it as a `List (κ × α)`
with unique keys maintained by construction.
-/

abbrev AssocMap (κ : Type) (α : Type) : Type := List (κ × α)

namespace AssocMap

variable {κ α : Type} [DecidableEq κ]

def getVal : AssocMap κ α → κ → Option α
  | [], _ => none
  | e :: rest, k => if e.1 = k then some e.2 else getVal rest k

def hasKey (m : AssocMap κ α) (k : κ) : Bool := (getVal m k).isSome

def setVal : AssocMap κ α → κ → α → AssocMap κ α
  | [], k, v => [(k, v)]
  | e :: rest, k, v => if e.1 = k then (k, v) :: rest else e :: setVal rest k v

def delVal : AssocMap κ α → κ → AssocMap κ α
  | [], _ => []
  | e :: rest, k => if e.1 = k then rest else e :: delVal rest k

def values (m : AssocMap κ α) : List α := m.map Prod.snd

def keysList (m : AssocMap κ α) : List κ := m.map Prod.fst

@[simp] theorem getVal_nil (k : κ) : getVal ([] : AssocMap κ α) k = none := rfl

@[simp] theorem getVal_cons (e : κ × α) (rest : AssocMap κ α) (k : κ) :
    getVal (e :: rest) k = if e.1 = k then some e.2 else getVal rest k := rfl

theorem setVal_of_not_mem {m : AssocMap κ α} {k : κ} (hk : getVal m k = none) (v : α) :
    setVal m k v = m ++ [(k, v)] := by
  induction m with
  | nil => rfl
  | cons e rest ih =>
    simp only [getVal_cons] at hk
    by_cases h : e.1 = k
    · simp [h] at hk
    · simp only [setVal, if_neg h, List.cons_append, List.cons.injEq, true_and]
      exact ih (by simpa [h] using hk)

theorem length_setVal_of_mem {m : AssocMap κ α} {k : κ} (hk : getVal m k ≠ none) (v : α) :
    (setVal m k v).length = m.length := by
  induction m with
  | nil => simp at hk
  | cons e rest ih =>
    by_cases h : e.1 = k
    · simp [setVal, h]
    · simp only [getVal_cons, if_neg h] at hk
      simp [setVal, h, ih hk]

theorem keysList_setVal_of_mem {m : AssocMap κ α} {k : κ} (hk : getVal m k ≠ none) (v : α) :
    keysList (setVal m k v) = keysList m := by
  induction m with
  | nil => simp at hk
  | cons e rest ih =>
    by_cases h : e.1 = k
    · simp [setVal, h, keysList]
    · simp only [getVal_cons, if_neg h] at hk
      simp only [setVal, if_neg h, keysList, List.map_cons, List.cons.injEq, true_and]
      simpa [keysList] using ih hk

theorem getVal_setVal_self (m : AssocMap κ α) (k : κ) (v : α) :
    getVal (setVal m k v) k = some v := by
  induction m with
  | nil => simp [setVal]
  | cons e rest ih =>
    by_cases h : e.1 = k
    · simp [setVal, h]
    · simp [setVal, h, ih]

theorem getVal_setVal_ne (m : AssocMap κ α) {k k' : κ} (h : k ≠ k') (v : α) :
    getVal (setVal m k v) k' = getVal m k' := by
  induction m with
  | nil => simp [setVal, h]
  | cons e rest ih =>
    by_cases he : e.1 = k
    · have hne : e.1 ≠ k' := by rw [he]; exact h
      simp [setVal, he, h, hne]
    · simp [setVal, he, ih]

theorem getVal_append_left {m₁ m₂ : AssocMap κ α} {k : κ} (h : getVal m₁ k ≠ none) :
    getVal (m₁ ++ m₂) k = getVal m₁ k := by
  induction m₁ with
  | nil => simp at h
  | cons e rest ih =>
    by_cases he : e.1 = k
    · simp [he]
    · simp only [getVal_cons, if_neg he] at h
      simpa [he] using ih h

theorem getVal_append_right {m₁ m₂ : AssocMap κ α} {k : κ} (h : getVal m₁ k = none) :
    getVal (m₁ ++ m₂) k = getVal m₂ k := by
  induction m₁ with
  | nil => simp
  | cons e rest ih =>
    by_cases he : e.1 = k
    · simp [he] at h
    · simp only [getVal_cons, if_neg he] at h
      simpa [he] using ih h

theorem getVal_eq_none_of_not_mem_keys {m : AssocMap κ α} {k : κ}
    (h : k ∉ keysList m) : getVal m k = none := by
  induction m with
  | nil => rfl
  | cons e rest ih =>
    simp only [keysList, List.map_cons, List.mem_cons] at h
    push_neg at h
    simp only [getVal_cons, if_neg (Ne.symm h.1)]
    exact ih (by simpa [keysList] using h.2)

theorem length_delVal_of_mem {m : AssocMap κ α} {k : κ} (hk : getVal m k ≠ none) :
    (delVal m k).length + 1 = m.length := by
  induction m with
  | nil => simp at hk
  | cons e rest ih =>
    by_cases h : e.1 = k
    · simp [delVal, h]
    · simp only [getVal_cons, if_neg h] at hk
      simp [delVal, h, ← ih hk]

theorem delVal_of_not_mem {m : AssocMap κ α} {k : κ} (hk : getVal m k = none) :
    delVal m k = m := by
  induction m with
  | nil => rfl
  | cons e rest ih =>
    by_cases h : e.1 = k
    · simp [h] at hk
    · simp only [getVal_cons, if_neg h] at hk
      simp [delVal, h, ih (by simpa [h] using hk)]

theorem keysList_delVal_sublist (m : AssocMap κ α) (k : κ) :
    (keysList (delVal m k)).Sublist (keysList m) := by
  induction m with
  | nil => simp [delVal, keysList]
  | cons e rest ih =>
    by_cases h : e.1 = k
    · simp only [delVal, if_pos h, keysList, List.map_cons]
      exact List.sublist_cons_self _ _
    · simp only [delVal, if_neg h, keysList, List.map_cons]
      exact List.Sublist.cons₂ _ ih

theorem nodup_delVal {m : AssocMap κ α} (hm : (keysList m).Nodup) (k : κ) :
    (keysList (delVal m k)).Nodup :=
  List.Nodup.sublist (keysList_delVal_sublist m k) hm

theorem getVal_delVal_self {m : AssocMap κ α} (hm : (keysList m).Nodup) (k : κ) :
    getVal (delVal m k) k = none := by
  induction m with
  | nil => rfl
  | cons e rest ih =>
    simp only [keysList, List.map_cons, List.nodup_cons] at hm
    by_cases h : e.1 = k
    · subst h
      simp only [delVal, if_pos rfl]
      exact getVal_eq_none_of_not_mem_keys (by simpa [keysList] using hm.1)
    · simp only [delVal, if_neg h, getVal_cons, if_neg h]
      exact ih hm.2

end AssocMap

/-! ## CopperLayerManager (layer-offset calculator)

Embedded from the `CopperLayerManager` class: board thickness is the only
state, and the two copper z-heights are derived from it together with the
fixed clearance constant `COPPER_OFFSET_MM = 0.01`.
-/

def COPPER_OFFSET_MM : ℚ := 1/100

structure CopperLayerManager where
  boardThickness : ℚ
deriving DecidableEq

def getTopCopperZ (m : CopperLayerManager) : ℚ :=
  m.boardThickness / 2 + COPPER_OFFSET_MM

def getBottomCopperZ (m : CopperLayerManager) : ℚ :=
  -(m.boardThickness / 2) - COPPER_OFFSET_MM

def updateBoardThickness (m : CopperLayerManager) (newThickness : ℚ) : CopperLayerManager :=
  { m with boardThickness := newThickness }

def getBoardThickness (m : CopperLayerManager) : ℚ := m.boardThickness

def validateZSeparation (m : CopperLayerManager) : Bool :=
  let topZ := getTopCopperZ m
  let boardTop := m.boardThickness / 2
  let separation := |topZ - boardTop|
  separation ≥ COPPER_OFFSET_MM

/-- C4: the layer-offset calculator satisfies `topZ(t) = t/2 + clearance` and
`bottomZ(t) = -t/2 - clearance` with clearance `0.01`; for every `t > 0` the
separation `topZ(t) - bottomZ(t)` is at least `t + 2*clearance`, the strict
sandwich `topZ(t) > t/2 > bottomZ(t)` holds, and the runtime check
`validateZSeparation` returns true. -/
theorem copper_layer_offsets (m : CopperLayerManager) (ht : 0 < m.boardThickness) :
    getTopCopperZ m = m.boardThickness / 2 + COPPER_OFFSET_MM ∧
    getBottomCopperZ m = -(m.boardThickness / 2) - COPPER_OFFSET_MM ∧
    getTopCopperZ m - getBottomCopperZ m ≥ m.boardThickness + 2 * COPPER_OFFSET_MM ∧
    getTopCopperZ m > m.boardThickness / 2 ∧
    m.boardThickness / 2 > getBottomCopperZ m ∧
    validateZSeparation m = true := by
  refine ⟨rfl, rfl, ?_, ?_, ?_, ?_⟩
  · simp only [getTopCopperZ, getBottomCopperZ, COPPER_OFFSET_MM]
    linarith
  · simp only [getTopCopperZ, COPPER_OFFSET_MM]
    linarith
  · simp only [getBottomCopperZ, COPPER_OFFSET_MM]
    linarith
  · simp only [validateZSeparation, getTopCopperZ, COPPER_OFFSET_MM]
    norm_num
    rw [abs_of_nonneg (by norm_num : (0:ℚ) ≤ 1/100)]

/-- Witness for C4: at the default board thickness 1.6 the hypothesis holds
and the layer-offset contract follows. -/
theorem copper_layer_offsets_witness :
    (0 : ℚ) < (8/5 : ℚ) ∧
      (getTopCopperZ ⟨8/5⟩ = (8/5 : ℚ) / 2 + COPPER_OFFSET_MM ∧
       getBottomCopperZ ⟨8/5⟩ = -((8/5 : ℚ) / 2) - COPPER_OFFSET_MM ∧
       getTopCopperZ ⟨8/5⟩ - getBottomCopperZ ⟨8/5⟩ ≥ (8/5 : ℚ) + 2 * COPPER_OFFSET_MM ∧
       getTopCopperZ ⟨8/5⟩ > (8/5 : ℚ) / 2 ∧
       (8/5 : ℚ) / 2 > getBottomCopperZ ⟨8/5⟩ ∧
       validateZSeparation ⟨8/5⟩ = true) :=
  ⟨by norm_num, copper_layer_offsets ⟨8/5⟩ (by norm_num)⟩

/-! ## Entity data model

Coordinates are rationals.  `THREE.Matrix4.compose(position, quaternion,
scale)` builds a transform from a translation, a rotation and a scale; the
stores only ever build rotations about the y-axis from a single angle, so an
instance transform is modelled as the (position, y-angle, scale) triple the
code passes to `compose`.
-/

structure Vec2 where
  x : ℚ
  y : ℚ
deriving DecidableEq

structure Vec3 where
  x : ℚ
  y : ℚ
  z : ℚ
deriving DecidableEq

/-- Pad record from `SMDPads.ts`.  `type` and `layer` are the runtime string
values declared as `'rect' | 'circle'` and `'top' | 'bottom'` in the source. -/
structure SMDDPadData where
  id : String
  type : String
  position : Vec3
  size : Vec2
  rotation : ℚ
  layer : String
deriving DecidableEq

/-- Instance transform written by `SMDPads.updateInstanceMatrix`: translation
`(position.x, targetZ, position.z)`, y-Euler rotation `padData.rotation`,
scale `(size.x, 1, size.y)`. -/
structure PadInstance where
  position : Vec3
  rotationY : ℚ
  scale : Vec3
deriving DecidableEq

def padInstanceMatrix (mgr : CopperLayerManager) (padData : SMDDPadData) : PadInstance :=
  let targetZ := if padData.layer = "top" then getTopCopperZ mgr else getBottomCopperZ mgr
  { position := ⟨padData.position.x, targetZ, padData.position.z⟩
    rotationY := padData.rotation
    scale := ⟨padData.size.x, 1, padData.size.y⟩ }

/-- State of the `SMDPads` instanced store.  `buffer`/`edgeBuffer` are the
`setMatrixAt` write targets of the main and edge instanced meshes indexed by
slot; `meshCount`/`edgeMeshCount` mirror `instancedMesh.count` and
`edgeMesh.count`.  (The `needsUpdate` dirty flags are render-side hints with
no semantic content and are not modelled.) -/
structure SMDPads where
  padData : AssocMap String SMDDPadData
  maxInstances : ℕ
  instanceCount : ℕ
  buffer : AssocMap ℕ PadInstance
  edgeBuffer : AssocMap ℕ PadInstance
  meshCount : ℕ
  edgeMeshCount : ℕ
deriving DecidableEq

namespace SMDPads

/-- Freshly constructed store (`new SMDPads(copperLayerManager, maxInstances)`). -/
def new (maxInstances : ℕ) : SMDPads :=
  { padData := [], maxInstances := maxInstances, instanceCount := 0,
    buffer := [], edgeBuffer := [], meshCount := 0, edgeMeshCount := 0 }

/-- `addPad`: fails when the capacity is exhausted; otherwise records the pad,
writes its transform at slot `instanceCount` in both instance buffers and
bumps the counts.  The manager is passed because `updateInstanceMatrix`
re-queries the current copper z-heights. -/
def addPad (mgr : CopperLayerManager) (s : SMDPads) (padData : SMDDPadData) :
    Bool × SMDPads :=
  if s.instanceCount ≥ s.maxInstances then (false, s)
  else
    let m := padInstanceMatrix mgr padData
    (true,
      { s with
        padData := AssocMap.setVal s.padData padData.id padData
        buffer := AssocMap.setVal s.buffer s.instanceCount m
        edgeBuffer := AssocMap.setVal s.edgeBuffer s.instanceCount m
        instanceCount := s.instanceCount + 1
        meshCount := s.instanceCount + 1
        edgeMeshCount := s.instanceCount + 1 })

/-- `addPads`: applies `addPad` per item, counting the successes. -/
def addPads (mgr : CopperLayerManager) (s : SMDPads) (padsArray : List SMDDPadData) :
    ℕ × SMDPads :=
  padsArray.foldl
    (fun acc padData =>
      let r := addPad mgr acc.2 padData
      (if r.1 then acc.1 + 1 else acc.1, r.2))
    (0, s)

/-- `rebuildInstances`: resets the counts, snapshots the remaining pads,
clears the map and re-adds every pad, reassigning dense slots. -/
def rebuildInstances (mgr : CopperLayerManager) (s : SMDPads) : SMDPads :=
  let remainingPads := AssocMap.values s.padData
  let s0 := { s with instanceCount := 0, meshCount := 0, edgeMeshCount := 0,
                     padData := [] }
  remainingPads.foldl (fun acc padData => (addPad mgr acc padData).2) s0

/-- `removePad`: fails on an unknown id, otherwise deletes the record and
performs the full rebuild. -/
def removePad (mgr : CopperLayerManager) (s : SMDPads) (padId : String) :
    Bool × SMDPads :=
  if AssocMap.hasKey s.padData padId = false then (false, s)
  else (true, rebuildInstances mgr { s with padData := AssocMap.delVal s.padData padId })

def getPad (s : SMDPads) (padId : String) : Option SMDDPadData :=
  AssocMap.getVal s.padData padId

def getAllPads (s : SMDPads) : List SMDDPadData :=
  AssocMap.values s.padData

def getPadsByLayer (s : SMDPads) (layer : String) : List SMDDPadData :=
  (getAllPads s).filter (fun pad => pad.layer = layer)

/-- `getInstanceId`: index of the pad id in the map's key order, `-1` when
absent (JavaScript `Array.prototype.indexOf`). -/
def getInstanceId (s : SMDPads) (padId : String) : Int :=
  let pads := AssocMap.keysList s.padData
  if padId ∈ pads then (pads.indexOf padId : Int) else -1

def clear (s : SMDPads) : SMDPads :=
  { s with padData := [], instanceCount := 0, meshCount := 0, edgeMeshCount := 0 }

def getPadCount (s : SMDPads) : ℕ := s.instanceCount

end SMDPads

/-! ## ThroughHoles store

Embedded from `ThroughHoles` and its high-level wrapper `ThroughHoleManager`.
The instance transform composed in `addHole` has translation
`(position.x, 0, position.z)`, identity rotation and scale
`(diameter, depth, diameter)`.
-/

structure ThroughHoleData where
  id : String
  position : Vec3
  diameter : ℚ
  depth : ℚ
deriving DecidableEq

structure HoleInstance where
  position : Vec3
  scale : Vec3
deriving DecidableEq

structure ThroughHoles where
  holeData : AssocMap String ThroughHoleData
  maxInstances : ℕ
  instanceCount : ℕ
  buffer : AssocMap ℕ HoleInstance
  edgeBuffer : AssocMap ℕ HoleInstance
  meshCount : ℕ
  edgeMeshCount : ℕ
deriving DecidableEq

namespace ThroughHoles

def new (maxInstances : ℕ) : ThroughHoles :=
  { holeData := [], maxInstances := maxInstances, instanceCount := 0,
    buffer := [], edgeBuffer := [], meshCount := 0, edgeMeshCount := 0 }

def holeInstanceMatrix (data : ThroughHoleData) : HoleInstance :=
  { position := ⟨data.position.x, 0, data.position.z⟩
    scale := ⟨data.diameter, data.depth, data.diameter⟩ }

/-- `addHole`: fails when the capacity is exhausted, otherwise records the
hole, writes its transform at slot `instanceCount` in both buffers and bumps
the counts. -/
def addHole (s : ThroughHoles) (data : ThroughHoleData) : Bool × ThroughHoles :=
  if s.instanceCount ≥ s.maxInstances then (false, s)
  else
    let m := holeInstanceMatrix data
    (true,
      { s with
        holeData := AssocMap.setVal s.holeData data.id data
        buffer := AssocMap.setVal s.buffer s.instanceCount m
        edgeBuffer := AssocMap.setVal s.edgeBuffer s.instanceCount m
        instanceCount := s.instanceCount + 1
        meshCount := s.instanceCount + 1
        edgeMeshCount := s.instanceCount + 1 })

def getAllHoles (s : ThroughHoles) : List ThroughHoleData :=
  AssocMap.values s.holeData

def clear (s : ThroughHoles) : ThroughHoles :=
  { s with holeData := [], instanceCount := 0, meshCount := 0 }

end ThroughHoles

/-- `ThroughHoleManager.addHole(id, x, z, diameter)`: builds the record at
`(x, 0, z)` with depth `thickness + 0.1` read from the current copper layer
manager and delegates to the low-level store. -/
def ThroughHoleManager.addHole (clm : CopperLayerManager) (s : ThroughHoles)
    (id : String) (x z diameter : ℚ) : Bool × ThroughHoles :=
  let thickness := getBoardThickness clm
  ThroughHoles.addHole s
    { id := id, position := ⟨x, 0, z⟩, diameter := diameter,
      depth := thickness + 1/10 }

/-! ## FlatTraces store

Embedded from `FlatTraces.ts`.  A trace is an ordered polyline; `addTrace`
decomposes it into straight segments, one GPU instance per consecutive
waypoint pair, breaking out of the loop when the shared segment capacity is
reached.  The committed instance matrix of a segment is fully determined by
the pair of endpoints, the trace width and the layer, so the buffer stores
that quadruple; its translation / rotation / scale components as composed by
the source are derived below (`tracePlacementPos`, and the real-valued angle
and length functions).  Likewise `TraceSegment.length` and
`TraceSegment.angle` are immutable fields computed at construction from the
stored endpoints; they are modelled as derived functions. -/

structure TraceData where
  id : String
  points : List Vec2
  width : ℚ
  layer : String
  name : Option String := none
deriving DecidableEq

structure TraceSegment where
  startPoint : Vec2
  endPoint : Vec2
  width : ℚ
  instanceId : ℕ
deriving DecidableEq

/-- JavaScript `Math.atan2(y, x)` (standard quadrant-aware arctangent). -/
noncomputable def atan2 (y x : ℝ) : ℝ :=
  if 0 < x then Real.arctan (y / x)
  else if x < 0 ∧ 0 ≤ y then Real.arctan (y / x) + Real.pi
  else if x < 0 ∧ y < 0 then Real.arctan (y / x) - Real.pi
  else if x = 0 ∧ 0 < y then Real.pi / 2
  else if x = 0 ∧ y < 0 then -(Real.pi / 2)
  else 0

/-- Segment length as computed in `addTrace`:
`Math.sqrt(dx * dx + dz * dz)` with `dx = p2.x - p1.x`, `dz = p2.y - p1.y`. -/
noncomputable def TraceSegment.length (s : TraceSegment) : ℝ :=
  let dx : ℝ := ((s.endPoint.x - s.startPoint.x : ℚ) : ℝ)
  let dz : ℝ := ((s.endPoint.y - s.startPoint.y : ℚ) : ℝ)
  Real.sqrt (dx * dx + dz * dz)

/-- Segment angle as computed in `addTrace`: `Math.atan2(dz, dx)`. -/
noncomputable def TraceSegment.angle (s : TraceSegment) : ℝ :=
  let dx : ℝ := ((s.endPoint.x - s.startPoint.x : ℚ) : ℝ)
  let dz : ℝ := ((s.endPoint.y - s.startPoint.y : ℚ) : ℝ)
  atan2 dz dx

/-- Committed instance matrix data for one trace segment. -/
structure TraceInstanceMatrix where
  p1 : Vec2
  p2 : Vec2
  width : ℚ
  layer : String
deriving DecidableEq

/-- Translation component composed in `addTrace`:
`((p1.x + p2.x) / 2, layer === 'top' ? 0.01 : -0.01, (p1.y + p2.y) / 2)`.
Note the y-coordinate is the hard-coded constant `±0.01`, not a query of the
copper layer manager (the constructor's manager argument is unused). -/
def tracePlacementPos (m : TraceInstanceMatrix) : Vec3 :=
  ⟨(m.p1.x + m.p2.x) / 2, if m.layer = "top" then 1/100 else -(1/100), (m.p1.y + m.p2.y) / 2⟩

structure FlatTraces where
  traces : AssocMap String TraceData
  traceSegments : AssocMap String (List TraceSegment)
  maxInstances : ℕ
  instanceCount : ℕ
  buffer : AssocMap ℕ TraceInstanceMatrix
  meshCount : ℕ
deriving DecidableEq

namespace FlatTraces

def new (maxInstances : ℕ) : FlatTraces :=
  { traces := [], traceSegments := [], maxInstances := maxInstances,
    instanceCount := 0, buffer := [], meshCount := 0 }

/-- Trace decomposition loop of `addTrace`: walks consecutive waypoint pairs,
breaking out when `instanceCount` reaches `maxInstances`; returns the
committed segments with the updated count and buffer. -/
def addTraceLoop (maxInstances : ℕ) (width : ℚ) (layer : String) :
    List Vec2 → ℕ → AssocMap ℕ TraceInstanceMatrix →
    List TraceSegment × ℕ × AssocMap ℕ TraceInstanceMatrix
  | p1 :: p2 :: rest, count, buf =>
    if count ≥ maxInstances then ([], count, buf)
    else
      let segment : TraceSegment :=
        { startPoint := p1, endPoint := p2, width := width, instanceId := count }
      let buf' := AssocMap.setVal buf count ⟨p1, p2, width, layer⟩
      let r := addTraceLoop maxInstances width layer (p2 :: rest) (count + 1) buf'
      (segment :: r.1, r.2)
  | _, count, buf => ([], count, buf)

/-- `addTrace`: decomposes the polyline (possibly partially, on capacity),
then unconditionally records the trace and its committed segments and
returns `true`. -/
def addTrace (s : FlatTraces) (traceData : TraceData) : Bool × FlatTraces :=
  let r := addTraceLoop s.maxInstances traceData.width traceData.layer
      traceData.points s.instanceCount s.buffer
  (true,
    { s with
      traces := AssocMap.setVal s.traces traceData.id traceData
      traceSegments := AssocMap.setVal s.traceSegments traceData.id r.1
      instanceCount := r.2.1
      buffer := r.2.2
      meshCount := r.2.1 })

def clear (s : FlatTraces) : FlatTraces :=
  { s with instanceCount := 0, meshCount := 0, traces := [], traceSegments := [] }

/-- `calculateTraceArea`: sum of `segment.length * segment.width` over the
trace's committed segments, `0` for an unknown id. -/
noncomputable def calculateTraceArea (s : FlatTraces) (traceId : String) : ℝ :=
  let segments := (AssocMap.getVal s.traceSegments traceId).getD []
  segments.foldl (fun acc seg => acc + seg.length * (seg.width : ℝ)) 0

/-- `calculateTraceLength`: sum of segment lengths, `0` for an unknown id. -/
noncomputable def calculateTraceLength (s : FlatTraces) (traceId : String) : ℝ :=
  let segments := (AssocMap.getVal s.traceSegments traceId).getD []
  segments.foldl (fun acc seg => acc + seg.length) 0

def getAllTraces (s : FlatTraces) : List TraceData :=
  AssocMap.values s.traces

end FlatTraces

/-! ## Fold lemmas for repeated pad adds -/

theorem AssocMap.keysList_append {κ α : Type} (m₁ m₂ : AssocMap κ α) :
    AssocMap.keysList (m₁ ++ m₂) = AssocMap.keysList m₁ ++ AssocMap.keysList m₂ := by
  simp [AssocMap.keysList]

def SMDPads.addPadFold (mgr : CopperLayerManager) (s : SMDPads)
    (l : List SMDDPadData) : SMDPads :=
  l.foldl (fun acc padData => (SMDPads.addPad mgr acc padData).2) s

theorem SMDPads.addPadFold_spec (mgr : CopperLayerManager) :
    ∀ (l : List SMDDPadData) (s : SMDPads),
      (AssocMap.keysList s.padData ++ l.map SMDDPadData.id).Nodup →
      s.instanceCount = s.padData.length →
      s.padData.length + l.length ≤ s.maxInstances →
      (SMDPads.addPadFold mgr s l).padData
          = s.padData ++ l.map (fun p => (p.id, p)) ∧
      (SMDPads.addPadFold mgr s l).instanceCount = s.instanceCount + l.length ∧
      (SMDPads.addPadFold mgr s l).maxInstances = s.maxInstances ∧
      (∀ j, j < s.instanceCount →
        AssocMap.getVal (SMDPads.addPadFold mgr s l).buffer j
          = AssocMap.getVal s.buffer j) ∧
      (∀ k (hk : k < l.length),
        AssocMap.getVal (SMDPads.addPadFold mgr s l).buffer (s.instanceCount + k)
          = some (padInstanceMatrix mgr (l.get ⟨k, hk⟩))) := by
  intro l
  induction l with
  | nil =>
    intro s hnd hcount hcap
    refine ⟨by simp [SMDPads.addPadFold], by simp [SMDPads.addPadFold],
      by simp [SMDPads.addPadFold], fun j hj => by simp [SMDPads.addPadFold],
      fun k hk => absurd hk (by simp)⟩
  | cons p rest ih =>
    intro s hnd hcount hcap
    have hfresh : AssocMap.getVal s.padData p.id = none := by
      apply AssocMap.getVal_eq_none_of_not_mem_keys
      intro hmem
      have := (List.nodup_append.mp hnd).2.2
      exact this hmem (by simp)
    have hlt : s.instanceCount < s.maxInstances := by
      simp only [List.length_cons] at hcap
      omega
    have hcond : ¬ (s.instanceCount ≥ s.maxInstances) := not_le.mpr hlt
    set m := padInstanceMatrix mgr p with hm
    set s₁ := (SMDPads.addPad mgr s p).2 with hs₁
    have hs₁def : s₁ =
        { s with
          padData := AssocMap.setVal s.padData p.id p
          buffer := AssocMap.setVal s.buffer s.instanceCount m
          edgeBuffer := AssocMap.setVal s.edgeBuffer s.instanceCount m
          instanceCount := s.instanceCount + 1
          meshCount := s.instanceCount + 1
          edgeMeshCount := s.instanceCount + 1 } := by
      rw [hs₁]
      simp [SMDPads.addPad, hcond]
    have hpad₁ : s₁.padData = s.padData ++ [(p.id, p)] := by
      rw [hs₁def]
      exact AssocMap.setVal_of_not_mem hfresh p
    have hfold : SMDPads.addPadFold mgr s (p :: rest) = SMDPads.addPadFold mgr s₁ rest := rfl
    have hnd₁ : (AssocMap.keysList s₁.padData ++ rest.map SMDDPadData.id).Nodup := by
      rw [hpad₁, AssocMap.keysList_append]
      have : AssocMap.keysList [(p.id, p)] = [p.id] := rfl
      rw [this, List.append_assoc]
      simpa using hnd
    have hcount₁ : s₁.instanceCount = s₁.padData.length := by
      rw [hpad₁, hs₁def]
      simp [hcount]
    have hcap₁ : s₁.padData.length + rest.length ≤ s₁.maxInstances := by
      rw [hpad₁]
      have hmax : s₁.maxInstances = s.maxInstances := by rw [hs₁def]
      rw [hmax]
      simp only [List.length_append, List.length_cons, List.length_nil] at hcap ⊢
      omega
    obtain ⟨ihpad, ihcount, ihmax, ihbufold, ihbufnew⟩ := ih s₁ hnd₁ hcount₁ hcap₁
    have hcountval : s₁.instanceCount = s.instanceCount + 1 := by rw [hs₁def]
    have hbuf₁ : s₁.buffer = AssocMap.setVal s.buffer s.instanceCount m := by rw [hs₁def]
    refine ⟨?_, ?_, ?_, ?_, ?_⟩
    · rw [hfold, ihpad, hpad₁]
      simp [List.append_assoc]
    · rw [hfold, ihcount, hcountval]
      simp only [List.length_cons]
      omega
    · rw [hfold, ihmax, hs₁def]
    · intro j hj
      rw [hfold, ihbufold j (by omega), hbuf₁,
        AssocMap.getVal_setVal_ne _ (by omega) m]
    · intro k hk
      match k with
      | 0 =>
        have h0 : s.instanceCount + 0 < s₁.instanceCount := by omega
        rw [hfold, ihbufold _ (by omega), hbuf₁]
        simpa using AssocMap.getVal_setVal_self s.buffer s.instanceCount m
      | Nat.succ k' =>
        have hk' : k' < rest.length := by
          simpa [Nat.succ_lt_succ_iff] using hk
        have := ihbufnew k' hk'
        rw [hfold]
        rw [hcountval] at this
        have harith : s.instanceCount + 1 + k' = s.instanceCount + (k' + 1) := by omega
        rw [harith] at this
        exact this

/-! ## C10: duplicate-id adds overwrite the record but consume a fresh slot -/

/-- C10: adding an entity whose id is already present in a pad or hole store
below capacity is not rejected: the add returns true, overwrites the existing
record in place (same record count, same key order), and still increments the
instance count, so the record count becomes strictly smaller than the
instance count. -/
theorem duplicate_id_add_consumes_slot :
    (∀ (mgr : CopperLayerManager) (s : SMDPads) (pad : SMDDPadData),
      AssocMap.getVal s.padData pad.id ≠ none →
      s.instanceCount < s.maxInstances →
      s.padData.length ≤ s.instanceCount →
      (SMDPads.addPad mgr s pad).1 = true ∧
      (SMDPads.addPad mgr s pad).2.padData.length = s.padData.length ∧
      AssocMap.getVal (SMDPads.addPad mgr s pad).2.padData pad.id = some pad ∧
      AssocMap.keysList (SMDPads.addPad mgr s pad).2.padData
        = AssocMap.keysList s.padData ∧
      (SMDPads.addPad mgr s pad).2.instanceCount = s.instanceCount + 1 ∧
      (SMDPads.addPad mgr s pad).2.padData.length
        < (SMDPads.addPad mgr s pad).2.instanceCount) ∧
    (∀ (s : ThroughHoles) (data : ThroughHoleData),
      AssocMap.getVal s.holeData data.id ≠ none →
      s.instanceCount < s.maxInstances →
      s.holeData.length ≤ s.instanceCount →
      (ThroughHoles.addHole s data).1 = true ∧
      (ThroughHoles.addHole s data).2.holeData.length = s.holeData.length ∧
      AssocMap.getVal (ThroughHoles.addHole s data).2.holeData data.id = some data ∧
      AssocMap.keysList (ThroughHoles.addHole s data).2.holeData
        = AssocMap.keysList s.holeData ∧
      (ThroughHoles.addHole s data).2.instanceCount = s.instanceCount + 1 ∧
      (ThroughHoles.addHole s data).2.holeData.length
        < (ThroughHoles.addHole s data).2.instanceCount) := by
  constructor
  · intro mgr s pad hdup hcap hle
    have hcond : ¬ (s.instanceCount ≥ s.maxInstances) := not_le.mpr hcap
    simp only [SMDPads.addPad, ge_iff_le, if_neg hcond]
    refine ⟨trivial, AssocMap.length_setVal_of_mem hdup pad,
      AssocMap.getVal_setVal_self _ _ _,
      AssocMap.keysList_setVal_of_mem hdup pad, trivial, ?_⟩
    rw [AssocMap.length_setVal_of_mem hdup pad]
    omega
  · intro s data hdup hcap hle
    have hcond : ¬ (s.instanceCount ≥ s.maxInstances) := not_le.mpr hcap
    simp only [ThroughHoles.addHole, ge_iff_le, if_neg hcond]
    refine ⟨trivial, AssocMap.length_setVal_of_mem hdup data,
      AssocMap.getVal_setVal_self _ _ _,
      AssocMap.keysList_setVal_of_mem hdup data, trivial, ?_⟩
    rw [AssocMap.length_setVal_of_mem hdup data]
    omega

/-- Concrete one-pad / one-hole stores used by the C10 witness. -/
def witPad0 : SMDDPadData :=
  { id := "a", type := "rect", position := ⟨0, 0, 0⟩, size := ⟨2, 2⟩,
    rotation := 0, layer := "top" }

def witPad1 : SMDDPadData :=
  { id := "a", type := "circle", position := ⟨1, 0, 1⟩, size := ⟨3, 3⟩,
    rotation := 0, layer := "bottom" }

def witMgr : CopperLayerManager := ⟨8/5⟩

def witPadStore : SMDPads :=
  (SMDPads.addPad witMgr (SMDPads.new 4) witPad0).2

def witHole0 : ThroughHoleData :=
  { id := "h", position := ⟨0, 0, 0⟩, diameter := 1, depth := 17/10 }

def witHole1 : ThroughHoleData :=
  { id := "h", position := ⟨5, 0, 5⟩, diameter := 2, depth := 17/10 }

def witHoleStore : ThroughHoles :=
  (ThroughHoles.addHole (ThroughHoles.new 4) witHole0).2

/-- Witness for C10: a duplicate-id pad add and a duplicate-id hole add on
concrete one-entity stores behave as proved. -/
theorem duplicate_id_add_consumes_slot_witness :
    ((SMDPads.addPad witMgr witPadStore witPad1).1 = true ∧
      (SMDPads.addPad witMgr witPadStore witPad1).2.padData.length
        = witPadStore.padData.length ∧
      AssocMap.getVal (SMDPads.addPad witMgr witPadStore witPad1).2.padData witPad1.id
        = some witPad1 ∧
      AssocMap.keysList (SMDPads.addPad witMgr witPadStore witPad1).2.padData
        = AssocMap.keysList witPadStore.padData ∧
      (SMDPads.addPad witMgr witPadStore witPad1).2.instanceCount
        = witPadStore.instanceCount + 1 ∧
      (SMDPads.addPad witMgr witPadStore witPad1).2.padData.length
        < (SMDPads.addPad witMgr witPadStore witPad1).2.instanceCount) ∧
    ((ThroughHoles.addHole witHoleStore witHole1).1 = true ∧
      (ThroughHoles.addHole witHoleStore witHole1).2.holeData.length
        = witHoleStore.holeData.length ∧
      AssocMap.getVal (ThroughHoles.addHole witHoleStore witHole1).2.holeData witHole1.id
        = some witHole1 ∧
      AssocMap.keysList (ThroughHoles.addHole witHoleStore witHole1).2.holeData
        = AssocMap.keysList witHoleStore.holeData ∧
      (ThroughHoles.addHole witHoleStore witHole1).2.instanceCount
        = witHoleStore.instanceCount + 1 ∧
      (ThroughHoles.addHole witHoleStore witHole1).2.holeData.length
        < (ThroughHoles.addHole witHoleStore witHole1).2.instanceCount) :=
  ⟨duplicate_id_add_consumes_slot.1 witMgr witPadStore witPad1
      (by decide) (by decide) (by decide),
   duplicate_id_add_consumes_slot.2 witHoleStore witHole1
      (by decide) (by decide) (by decide)⟩

/-! ## C1: capacity exhaustion -/

theorem SMDPads.addPads_snd (mgr : CopperLayerManager) :
    ∀ (l : List SMDDPadData) (acc : ℕ × SMDPads),
      (List.foldl
        (fun acc padData =>
          let r := SMDPads.addPad mgr acc.2 padData
          (if r.1 then acc.1 + 1 else acc.1, r.2)) acc l).2
        = SMDPads.addPadFold mgr acc.2 l := by
  intro l
  induction l with
  | nil => intro acc; rfl
  | cons p rest ih =>
    intro acc
    simp only [List.foldl_cons]
    rw [ih]
    rfl

theorem FlatTraces.addTraceLoop_at_capacity (maxI : ℕ) (w : ℚ) (lay : String)
    (points : List Vec2) (count : ℕ) (buf : AssocMap ℕ TraceInstanceMatrix)
    (h : count ≥ maxI) :
    FlatTraces.addTraceLoop maxI w lay points count buf = ([], count, buf) := by
  match points with
  | [] => rfl
  | [p] => rfl
  | p1 :: p2 :: rest => simp [FlatTraces.addTraceLoop, h]

/-- C1 (amended): a pad or hole add performed at full capacity returns false
and leaves the store unmutated, and adding C+1 distinct-id pads to a
capacity-C pad store leaves exactly C live entities with the (C+1)th add
returning false; the trace store's `addTrace`, by contrast, always returns
true — at exhausted capacity it commits no segments and leaves the instance
count and buffer unchanged but still records the trace. -/
theorem capacity_exhaustion :
    (∀ (mgr : CopperLayerManager) (s : SMDPads) (pad : SMDDPadData),
      s.instanceCount ≥ s.maxInstances → SMDPads.addPad mgr s pad = (false, s)) ∧
    (∀ (s : ThroughHoles) (data : ThroughHoleData),
      s.instanceCount ≥ s.maxInstances → ThroughHoles.addHole s data = (false, s)) ∧
    (∀ (mgr : CopperLayerManager) (C : ℕ) (l : List SMDDPadData) (p : SMDDPadData),
      ((l ++ [p]).map SMDDPadData.id).Nodup → l.length = C →
      (SMDPads.addPadFold mgr (SMDPads.new C) l).padData.length = C ∧
      (SMDPads.addPadFold mgr (SMDPads.new C) l).instanceCount = C ∧
      SMDPads.addPad mgr (SMDPads.addPadFold mgr (SMDPads.new C) l) p
        = (false, SMDPads.addPadFold mgr (SMDPads.new C) l) ∧
      (SMDPads.addPads mgr (SMDPads.new C) (l ++ [p])).2.padData.length = C) ∧
    (∀ (s : FlatTraces) (t : TraceData),
      s.instanceCount ≥ s.maxInstances →
      (FlatTraces.addTrace s t).1 = true ∧
      (FlatTraces.addTrace s t).2.traces = AssocMap.setVal s.traces t.id t ∧
      AssocMap.getVal (FlatTraces.addTrace s t).2.traceSegments t.id = some [] ∧
      (FlatTraces.addTrace s t).2.instanceCount = s.instanceCount ∧
      (FlatTraces.addTrace s t).2.buffer = s.buffer) := by
  refine ⟨?_, ?_, ?_, ?_⟩
  · intro mgr s pad h
    simp [SMDPads.addPad, h]
  · intro s data h
    simp [ThroughHoles.addHole, h]
  · intro mgr C l p hnd hlen
    have hnd' : (AssocMap.keysList (SMDPads.new C).padData ++ l.map SMDDPadData.id).Nodup := by
      simp only [List.map_append, List.map_cons, List.map_nil] at hnd
      simpa [SMDPads.new, AssocMap.keysList] using (List.nodup_append.mp hnd).1
    obtain ⟨hpad, hcount, hmax, _, _⟩ :=
      SMDPads.addPadFold_spec mgr l (SMDPads.new C) hnd'
        (by simp [SMDPads.new]) (by simpa [SMDPads.new] using hlen.le)
    have hlen' : (SMDPads.addPadFold mgr (SMDPads.new C) l).padData.length = C := by
      rw [hpad]
      simpa [SMDPads.new] using hlen
    have hcount' : (SMDPads.addPadFold mgr (SMDPads.new C) l).instanceCount = C := by
      rw [hcount]; simpa [SMDPads.new] using hlen
    have hfail : SMDPads.addPad mgr (SMDPads.addPadFold mgr (SMDPads.new C) l) p
        = (false, SMDPads.addPadFold mgr (SMDPads.new C) l) := by
      have hge : (SMDPads.addPadFold mgr (SMDPads.new C) l).instanceCount
          ≥ (SMDPads.addPadFold mgr (SMDPads.new C) l).maxInstances := by
        rw [hcount', hmax]
        simp [SMDPads.new]
      simp [SMDPads.addPad, hge]
    refine ⟨hlen', hcount', hfail, ?_⟩
    have h1 : (SMDPads.addPads mgr (SMDPads.new C) (l ++ [p])).2
        = SMDPads.addPadFold mgr (SMDPads.new C) (l ++ [p]) :=
      SMDPads.addPads_snd mgr (l ++ [p]) (0, SMDPads.new C)
    have h2 : SMDPads.addPadFold mgr (SMDPads.new C) (l ++ [p])
        = (SMDPads.addPad mgr (SMDPads.addPadFold mgr (SMDPads.new C) l) p).2 := by
      simp [SMDPads.addPadFold, List.foldl_append]
    rw [h1, h2, hfail]
    exact hlen'
  · intro s t h
    have hloop := FlatTraces.addTraceLoop_at_capacity s.maxInstances t.width t.layer
      t.points s.instanceCount s.buffer h
    refine ⟨rfl, ?_, ?_, ?_, ?_⟩ <;>
      simp [FlatTraces.addTrace, hloop, AssocMap.getVal_setVal_self]

/-- Trace used in the C1 counterexample and the C1/C3 witnesses. -/
def cexTrace : TraceData :=
  { id := "t0", points := [⟨0, 0⟩, ⟨1, 0⟩], width := 1, layer := "top", name := none }

/-- Counterexample for C1 as stated: the trace-segment store at full capacity
(capacity 0, live count 0) does not reject an add — `addTrace` returns true
and the store is mutated (the trace record is created). -/
theorem trace_add_at_capacity_not_rejected :
    (FlatTraces.addTrace (FlatTraces.new 0) cexTrace).1 = true ∧
    (FlatTraces.addTrace (FlatTraces.new 0) cexTrace).2 ≠ FlatTraces.new 0 := by
  decide

def witPadA : SMDDPadData :=
  { id := "a", type := "rect", position := ⟨0, 0, 0⟩, size := ⟨2, 2⟩,
    rotation := 0, layer := "top" }

def witPadB : SMDDPadData :=
  { id := "b", type := "circle", position := ⟨3, 0, 3⟩, size := ⟨1, 1⟩,
    rotation := 0, layer := "bottom" }

/-- Witness for C1: concrete full stores reject pad/hole adds unchanged, a
capacity-1 pad store holds exactly 1 pad after 2 distinct adds with the 2nd
returning false, and a full trace store accepts the trace with no segments. -/
theorem capacity_exhaustion_witness :
    SMDPads.addPad witMgr (SMDPads.new 0) witPadA = (false, SMDPads.new 0) ∧
    ThroughHoles.addHole (ThroughHoles.new 0) witHole0 = (false, ThroughHoles.new 0) ∧
    ((SMDPads.addPadFold witMgr (SMDPads.new 1) [witPadA]).padData.length = 1 ∧
      (SMDPads.addPadFold witMgr (SMDPads.new 1) [witPadA]).instanceCount = 1 ∧
      SMDPads.addPad witMgr (SMDPads.addPadFold witMgr (SMDPads.new 1) [witPadA]) witPadB
        = (false, SMDPads.addPadFold witMgr (SMDPads.new 1) [witPadA]) ∧
      (SMDPads.addPads witMgr (SMDPads.new 1) ([witPadA] ++ [witPadB])).2.padData.length = 1) ∧
    ((FlatTraces.addTrace (FlatTraces.new 0) cexTrace).1 = true ∧
      (FlatTraces.addTrace (FlatTraces.new 0) cexTrace).2.traces
        = AssocMap.setVal (FlatTraces.new 0).traces cexTrace.id cexTrace ∧
      AssocMap.getVal (FlatTraces.addTrace (FlatTraces.new 0) cexTrace).2.traceSegments
          cexTrace.id = some [] ∧
      (FlatTraces.addTrace (FlatTraces.new 0) cexTrace).2.instanceCount
        = (FlatTraces.new 0).instanceCount ∧
      (FlatTraces.addTrace (FlatTraces.new 0) cexTrace).2.buffer = (FlatTraces.new 0).buffer) :=
  ⟨capacity_exhaustion.1 witMgr (SMDPads.new 0) witPadA (by decide),
   capacity_exhaustion.2.1 (ThroughHoles.new 0) witHole0 (by decide),
   capacity_exhaustion.2.2.1 witMgr 1 [witPadA] witPadB (by decide) (by decide),
   capacity_exhaustion.2.2.2 (FlatTraces.new 0) cexTrace (by decide)⟩

/-! ## C2: removal, full rebuild, dense slots -/

theorem AssocMap.getVal_ne_none_of_mem_keys {κ α : Type} [DecidableEq κ]
    {m : AssocMap κ α} {k : κ} (h : k ∈ AssocMap.keysList m) :
    AssocMap.getVal m k ≠ none := by
  induction m with
  | nil => simp [AssocMap.keysList] at h
  | cons e rest ih =>
    by_cases he : e.1 = k
    · simp [he]
    · simp only [AssocMap.keysList, List.map_cons, List.mem_cons] at h
      rcases h with h | h
    



      · exact absurd h.symm he
      · simpa [he] using ih (by simpa [AssocMap.keysList] using h)

theorem AssocMap.delVal_sublist {κ α : Type} [DecidableEq κ] (m : AssocMap κ α) (k : κ) :
    (AssocMap.delVal m k).Sublist m := by
  induction m with
  | nil => simp [AssocMap.delVal]
  | cons e rest ih =>
    by_cases h : e.1 = k
    · simp only [AssocMap.delVal, if_pos h]
      exact List.sublist_cons_self _ _
    · simp only [AssocMap.delVal, if_neg h]
      exact List.Sublist.cons₂ _ ih

/-- Key/record-id coherence: every entry of the pad map is stored under its
own id, as `padData.set(padData.id, padData)` guarantees. -/
def KeysMatch (m : AssocMap String SMDDPadData) : Prop :=
  ∀ e ∈ m, e.2.id = e.1

theorem values_map_id_of_keysMatch {m : AssocMap String SMDDPadData}
    (h : KeysMatch m) :
    (AssocMap.values m).map SMDDPadData.id = AssocMap.keysList m := by
  simp only [AssocMap.values, AssocMap.keysList, List.map_map]
  exact List.map_congr_left h

theorem values_pair_of_keysMatch {m : AssocMap String SMDDPadData}
    (h : KeysMatch m) :
    (AssocMap.values m).map (fun p => (p.id, p)) = m := by
  simp only [AssocMap.values, List.map_map]
  have : ∀ e ∈ m, ((fun p => (p.id, p)) ∘ Prod.snd) e = id e := by
    intro e he
    have := h e he
    simp [Function.comp, this]
  rw [List.map_congr_left this, List.map_id]

theorem SMDPads.rebuildInstances_spec (mgr : CopperLayerManager) (s : SMDPads)
    (hnd : (AssocMap.keysList s.padData).Nodup)
    (hkm : KeysMatch s.padData)
    (hcap : s.padData.length ≤ s.maxInstances) :
    (SMDPads.rebuildInstances mgr s).padData = s.padData ∧
    (SMDPads.rebuildInstances mgr s).instanceCount = s.padData.length ∧
    (SMDPads.rebuildInstances mgr s).maxInstances = s.maxInstances ∧
    (∀ j (hj : j < (AssocMap.values s.padData).length),
      AssocMap.getVal (SMDPads.rebuildInstances mgr s).buffer j
        = some (padInstanceMatrix mgr ((AssocMap.values s.padData).get ⟨j, hj⟩))) := by
  have hrw : SMDPads.rebuildInstances mgr s
      = SMDPads.addPadFold mgr
          { s with instanceCount := 0, meshCount := 0, edgeMeshCount := 0, padData := [] }
          (AssocMap.values s.padData) := rfl
  set s0 : SMDPads :=
    { s with instanceCount := 0, meshCount := 0, edgeMeshCount := 0, padData := [] } with hs0
  have hnd0 : (AssocMap.keysList s0.padData
      ++ (AssocMap.values s.padData).map SMDDPadData.id).Nodup := by
    rw [values_map_id_of_keysMatch hkm]
    simpa [hs0, AssocMap.keysList] using hnd
  have hlen0 : (AssocMap.values s.padData).length = s.padData.length := by
    simp [AssocMap.values]
  obtain ⟨hpad, hcount, hmax, _, hbuf⟩ :=
    SMDPads.addPadFold_spec mgr (AssocMap.values s.padData) s0 hnd0
      (by simp [hs0]) (by simp [hs0, hlen0, hcap])
  refine ⟨?_, ?_, ?_, ?_⟩
  · rw [hrw, hpad]
    simp only [hs0, List.nil_append]
    exact values_pair_of_keysMatch hkm
  · rw [hrw, hcount]
    simp [hs0, hlen0]
  · rw [hrw, hmax]
  · intro j hj
    have := hbuf j (by simpa using hj)
    rw [hrw]
    simpa [hs0] using this

/-- Pad-store states reachable by any sequence of fresh-id adds and removes
from a freshly constructed store. -/
inductive PadReachable : SMDPads → Prop
  | init (maxInstances : ℕ) : PadReachable (SMDPads.new maxInstances)
  | add (mgr : CopperLayerManager) (s : SMDPads) (pad : SMDDPadData) :
      PadReachable s → AssocMap.getVal s.padData pad.id = none →
      PadReachable (SMDPads.addPad mgr s pad).2
  | remove (mgr : CopperLayerManager) (s : SMDPads) (padId : String) :
      PadReachable s → PadReachable (SMDPads.removePad mgr s padId).2

theorem padReachable_invariant {s : SMDPads} (h : PadReachable s) :
    KeysMatch s.padData ∧ (AssocMap.keysList s.padData).Nodup ∧
    s.padData.length = s.instanceCount ∧ s.instanceCount ≤ s.maxInstances := by
  induction h with
  | init maxInstances =>
    refine ⟨?_, ?_, ?_, ?_⟩ <;> simp [SMDPads.new, KeysMatch, AssocMap.keysList]
  | add mgr s pad hr hfresh ih =>
    obtain ⟨hkm, hnd, hlen, hcap⟩ := ih
    by_cases hfull : s.instanceCount ≥ s.maxInstances
    · have hsame : (SMDPads.addPad mgr s pad).2 = s := by
        simp [SMDPads.addPad, hfull]
      rw [hsame]
      exact ⟨hkm, hnd, hlen, hcap⟩
    · have hpad' : (SMDPads.addPad mgr s pad).2.padData = s.padData ++ [(pad.id, pad)] := by
        simp only [SMDPads.addPad, if_neg hfull]
        exact AssocMap.setVal_of_not_mem hfresh pad
      have hcount' : (SMDPads.addPad mgr s pad).2.instanceCount = s.instanceCount + 1 := by
        simp [SMDPads.addPad, hfull]
      have hmax' : (SMDPads.addPad mgr s pad).2.maxInstances = s.maxInstances := by
        simp [SMDPads.addPad, hfull]
      have hnotmem : pad.id ∉ AssocMap.keysList s.padData := by
        intro hmem
        exact AssocMap.getVal_ne_none_of_mem_keys hmem hfresh
      refine ⟨?_, ?_, ?_, ?_⟩
      · intro e he
        rw [hpad'] at he
        rcases List.mem_append.mp he with he | he
        · exact hkm e he
        · simp only [List.mem_singleton] at he
          subst he
          rfl
      · rw [hpad', AssocMap.keysList_append]
        refine List.Nodup.append hnd (List.nodup_singleton pad.id) ?_
        intro a ha hb
        simp only [AssocMap.keysList, List.map_cons, List.map_nil,
          List.mem_singleton] at hb
        subst hb
        exact hnotmem ha
      · rw [hpad', hcount']
        simp only [List.length_append, List.length_cons, List.length_nil]
        omega
      · rw [hcount', hmax']
        omega
  | remove mgr s padId hr ih =>
    obtain ⟨hkm, hnd, hlen, hcap⟩ := ih
    by_cases hk : AssocMap.getVal s.padData padId = none
    · have hnk : AssocMap.hasKey s.padData padId = false := by
        simp [AssocMap.hasKey, hk]
      have hsame : (SMDPads.removePad mgr s padId).2 = s := by
        simp [SMDPads.removePad, hnk]
      rw [hsame]
      exact ⟨hkm, hnd, hlen, hcap⟩
    · have hhas : AssocMap.hasKey s.padData padId = true := by
        simp [AssocMap.hasKey, Option.isSome_iff_ne_none, hk]
      have hrw : (SMDPads.removePad mgr s padId).2
          = SMDPads.rebuildInstances mgr
              { s with padData := AssocMap.delVal s.padData padId } := by
        simp [SMDPads.removePad, hhas]
      have hnd' : (AssocMap.keysList (AssocMap.delVal s.padData padId)).Nodup :=
        AssocMap.nodup_delVal hnd padId
      have hkm' : KeysMatch (AssocMap.delVal s.padData padId) := by
        intro e he
        exact hkm e ((AssocMap.delVal_sublist s.padData padId).mem he)
      have hcap' : (AssocMap.delVal s.padData padId).length ≤ s.maxInstances := by
        have := AssocMap.length_delVal_of_mem hk
        omega
      obtain ⟨hpad', hcount', hmax', _⟩ :=
        SMDPads.rebuildInstances_spec mgr
          { s with padData := AssocMap.delVal s.padData padId } hnd' hkm' hcap'
      rw [hrw]
      refine ⟨?_, ?_, ?_, ?_⟩
      · rw [hpad']
        exact hkm'
      · rw [hpad']
        exact hnd'
      · rw [hpad', hcount']
      · rw [hcount', hmax']
        exact hcap'

/-- C2: `removePad` with an unknown id returns false and mutates nothing;
with a known id it deletes that record and rebuilds, reassigning every
remaining pad a fresh dense slot with the whole instance buffer rewritten in
map order; and after any sequence of fresh-id adds and removes the live
slots (`getInstanceId` values) are exactly `0..count-1` with no gaps. -/
theorem remove_rebuild_dense_slots :
    (∀ (mgr : CopperLayerManager) (s : SMDPads) (padId : String),
      AssocMap.getVal s.padData padId = none →
      SMDPads.removePad mgr s padId = (false, s)) ∧
    (∀ (mgr : CopperLayerManager) (s : SMDPads) (padId : String),
      AssocMap.getVal s.padData padId ≠ none →
      (AssocMap.keysList s.padData).Nodup →
      KeysMatch s.padData →
      s.padData.length ≤ s.maxInstances →
      (SMDPads.removePad mgr s padId).1 = true ∧
      (SMDPads.removePad mgr s padId).2.padData = AssocMap.delVal s.padData padId ∧
      AssocMap.getVal (SMDPads.removePad mgr s padId).2.padData padId = none ∧
      (SMDPads.removePad mgr s padId).2.instanceCount
        = (AssocMap.delVal s.padData padId).length ∧
      (∀ j (hj : j < (AssocMap.values (AssocMap.delVal s.padData padId)).length),
        AssocMap.getVal (SMDPads.removePad mgr s padId).2.buffer j
          = some (padInstanceMatrix mgr
              ((AssocMap.values (AssocMap.delVal s.padData padId)).get ⟨j, hj⟩)))) ∧
    (∀ s : SMDPads, PadReachable s →
      s.padData.length = s.instanceCount ∧
      s.instanceCount ≤ s.maxInstances ∧
      (∀ padId ∈ AssocMap.keysList s.padData,
        ∃ j : ℕ, j < s.instanceCount ∧ SMDPads.getInstanceId s padId = (j : Int)) ∧
      (∀ j : ℕ, j < s.instanceCount →
        ∃ padId ∈ AssocMap.keysList s.padData,
          SMDPads.getInstanceId s padId = (j : Int))) := by
  refine ⟨?_, ?_, ?_⟩
  · intro mgr s padId hk
    have hnk : AssocMap.hasKey s.padData padId = false := by
      simp [AssocMap.hasKey, hk]
    simp [SMDPads.removePad, hnk]
  · intro mgr s padId hk hnd hkm hcap
    have hhas : AssocMap.hasKey s.padData padId = true := by
      simp [AssocMap.hasKey, Option.isSome_iff_ne_none, hk]
    have hrw : SMDPads.removePad mgr s padId
        = (true, SMDPads.rebuildInstances mgr
            { s with padData := AssocMap.delVal s.padData padId }) := by
      simp [SMDPads.removePad, hhas]
    have hnd' : (AssocMap.keysList (AssocMap.delVal s.padData padId)).Nodup :=
      AssocMap.nodup_delVal hnd padId
    have hkm' : KeysMatch (AssocMap.delVal s.padData padId) := by
      intro e he
      exact hkm e ((AssocMap.delVal_sublist s.padData padId).mem he)
    have hcap' : (AssocMap.delVal s.padData padId).length ≤ s.maxInstances := by
      have := AssocMap.length_delVal_of_mem hk
      omega
    obtain ⟨hpad', hcount', hmax', hbuf'⟩ :=
      SMDPads.rebuildInstances_spec mgr
        { s with padData := AssocMap.delVal s.padData padId } hnd' hkm' hcap'
    rw [hrw]
    refine ⟨rfl, by simpa using hpad', ?_, by simpa using hcount', ?_⟩
    · simp only
      rw [hpad']
      exact AssocMap.getVal_delVal_self hnd padId
    · intro j hj
      have := hbuf' j (by simpa using hj)
      simpa using this
  · intro s hs
    obtain ⟨hkm, hnd, hlen, hcap⟩ := padReachable_invariant hs
    refine ⟨hlen, hcap, ?_, ?_⟩
    · intro padId hmem
      refine ⟨(AssocMap.keysList s.padData).indexOf padId, ?_, ?_⟩
      · have := List.indexOf_lt_length.mpr hmem
        have hkl : (AssocMap.keysList s.padData).length = s.padData.length := by
          simp [AssocMap.keysList]
        omega
      · simp [SMDPads.getInstanceId, hmem]
    · intro j hj
      have hkl : (AssocMap.keysList s.padData).length = s.padData.length := by
        simp [AssocMap.keysList]
      have hjlt : j < (AssocMap.keysList s.padData).length := by omega
      refine ⟨(AssocMap.keysList s.padData).get ⟨j, hjlt⟩, List.get_mem _ _ _, ?_⟩
      have hmem : (AssocMap.keysList s.padData).get ⟨j, hjlt⟩ ∈ AssocMap.keysList s.padData :=
        List.get_mem _ _ _
      simp only [SMDPads.getInstanceId, if_pos hmem]
      rw [List.get_indexOf hnd]

/-- Witness for C2: on a concrete two-pad store, removing an unknown id is a
no-op, removing a known id rebuilds to 1 dense pad, and a concrete reachable
state has dense slots. -/
theorem remove_rebuild_dense_slots_witness :
    (SMDPads.removePad witMgr (SMDPads.addPadFold witMgr (SMDPads.new 4) [witPadA, witPadB])
        "zzz"
      = (false, SMDPads.addPadFold witMgr (SMDPads.new 4) [witPadA, witPadB])) ∧
    ((SMDPads.removePad witMgr (SMDPads.addPadFold witMgr (SMDPads.new 4) [witPadA, witPadB])
        "a").1 = true ∧
      (SMDPads.removePad witMgr (SMDPads.addPadFold witMgr (SMDPads.new 4) [witPadA, witPadB])
          "a").2.padData
        = AssocMap.delVal
            (SMDPads.addPadFold witMgr (SMDPads.new 4) [witPadA, witPadB]).padData "a") ∧
    ((SMDPads.addPadFold witMgr (SMDPads.new 4) [witPadA, witPadB]).padData.length
        = (SMDPads.addPadFold witMgr (SMDPads.new 4) [witPadA, witPadB]).instanceCount) := by
  have hreach : PadReachable (SMDPads.addPadFold witMgr (SMDPads.new 4) [witPadA, witPadB]) := by
    have h0 : PadReachable (SMDPads.new 4) := PadReachable.init 4
    have h1 : PadReachable (SMDPads.addPad witMgr (SMDPads.new 4) witPadA).2 :=
      PadReachable.add witMgr (SMDPads.new 4) witPadA h0 (by decide)
    exact PadReachable.add witMgr _ witPadB h1 (by decide)
  refine ⟨?_, ?_, ?_⟩
  · exact remove_rebuild_dense_slots.1 witMgr _ "zzz" (by decide)
  · have h := remove_rebuild_dense_slots.2.1 witMgr
      (SMDPads.addPadFold witMgr (SMDPads.new 4) [witPadA, witPadB]) "a"
      (by decide) (by decide) (padReachable_invariant hreach).1 (by decide)
    exact ⟨h.1, h.2.1⟩
  · exact (remove_rebuild_dense_slots.2.2 _ hreach).1

/-! ## C5: placement transforms and the layer offset -/

theorem FlatTraces.addTraceLoop_buffer_writes (maxI : ℕ) (w : ℚ) (lay : String) :
    ∀ (points : List Vec2) (count : ℕ) (buf : AssocMap ℕ TraceInstanceMatrix) (j : ℕ),
      AssocMap.getVal (FlatTraces.addTraceLoop maxI w lay points count buf).2.2 j
          = AssocMap.getVal buf j ∨
      ∃ p1 p2, AssocMap.getVal (FlatTraces.addTraceLoop maxI w lay points count buf).2.2 j
          = some ⟨p1, p2, w, lay⟩ := by
  intro points
  induction points with
  | nil => intro count buf j; left; rfl
  | cons p1 tl ih =>
    intro count buf j
    match tl with
    | [] => left; rfl
    | p2 :: rest =>
      by_cases hge : count ≥ maxI
      · left
        rw [FlatTraces.addTraceLoop_at_capacity maxI w lay _ count buf hge]
      · have hloop : FlatTraces.addTraceLoop maxI w lay (p1 :: p2 :: rest) count buf
            = let segment : TraceSegment :=
                { startPoint := p1, endPoint := p2, width := w, instanceId := count }
              let buf' := AssocMap.setVal buf count ⟨p1, p2, w, lay⟩
              let r := FlatTraces.addTraceLoop maxI w lay (p2 :: rest) (count + 1) buf'
              (segment :: r.1, r.2) := by
          simp [FlatTraces.addTraceLoop, hge]
        rw [hloop]
        rcases ih (count + 1) (AssocMap.setVal buf count ⟨p1, p2, w, lay⟩) j with h | ⟨q1, q2, h⟩
        · by_cases hj : count = j
          · right
            refine ⟨p1, p2, ?_⟩
            rw [h, ← hj]
            exact AssocMap.getVal_setVal_self buf count ⟨p1, p2, w, lay⟩
          · left
            rw [h, AssocMap.getVal_setVal_ne buf hj]
        · right
          exact ⟨q1, q2, h⟩

/-- C5 (amended): a pad's placement transform is recomputed from the current
substrate thickness at every add — its y-coordinate is `topZ(thickness)` on
the top layer and `bottomZ(thickness)` on the bottom layer; a committed trace
segment, by contrast, is always placed at the fixed y-coordinate `0.01`
(top) or `-0.01` (bottom) regardless of the substrate thickness (the trace
store never consults the copper layer manager). -/
theorem placement_layer_offsets :
    (∀ (mgr : CopperLayerManager) (s : SMDPads) (pad : SMDDPadData),
      s.instanceCount < s.maxInstances →
      AssocMap.getVal (SMDPads.addPad mgr s pad).2.buffer s.instanceCount
        = some (padInstanceMatrix mgr pad) ∧
      (padInstanceMatrix mgr pad).position.y
        = (if pad.layer = "top" then getTopCopperZ mgr else getBottomCopperZ mgr)) ∧
    (∀ (s : FlatTraces) (t : TraceData) (j : ℕ),
      AssocMap.getVal (FlatTraces.addTrace s t).2.buffer j = AssocMap.getVal s.buffer j ∨
      ∃ mtx : TraceInstanceMatrix,
        AssocMap.getVal (FlatTraces.addTrace s t).2.buffer j = some mtx ∧
        mtx.width = t.width ∧ mtx.layer = t.layer ∧
        (tracePlacementPos mtx).y = (if t.layer = "top" then (1/100 : ℚ) else -(1/100))) := by
  constructor
  · intro mgr s pad hlt
    have hcond : ¬ (s.instanceCount ≥ s.maxInstances) := not_le.mpr hlt
    constructor
    · simp only [SMDPads.addPad, if_neg hcond]
      exact AssocMap.getVal_setVal_self _ _ _
    · rfl
  · intro s t j
    have h := FlatTraces.addTraceLoop_buffer_writes s.maxInstances t.width t.layer
      t.points s.instanceCount s.buffer j
    rcases h with h | ⟨p1, p2, h⟩
    · left
      simpa [FlatTraces.addTrace] using h
    · right
      refine ⟨⟨p1, p2, t.width, t.layer⟩, ?_, rfl, rfl, rfl⟩
      simpa [FlatTraces.addTrace] using h

/-- Counterexample for C5 as stated: with substrate thickness 1.6 the
committed top-layer trace segment sits at y = 0.01 while
`topZ(1.6) = 0.81`, so trace placement does not track the layer offset. -/
theorem trace_segment_ignores_thickness :
    (∃ mtx : TraceInstanceMatrix,
      AssocMap.getVal (FlatTraces.addTrace (FlatTraces.new 5000) cexTrace).2.buffer 0
        = some mtx ∧ mtx.layer = "top" ∧ (tracePlacementPos mtx).y = 1/100) ∧
    getTopCopperZ witMgr = 81/100 ∧
    (1/100 : ℚ) ≠ 81/100 := by
  refine ⟨⟨⟨⟨0, 0⟩, ⟨1, 0⟩, 1, "top"⟩, by decide, rfl, ?_⟩, ?_, ?_⟩
  · norm_num [tracePlacementPos]
  · norm_num [getTopCopperZ, witMgr, COPPER_OFFSET_MM]
  · norm_num

/-- Witness for C5: the amended placement facts at a concrete pad add
(thickness 1.6) and the concrete trace segment of `cexTrace`. -/
theorem placement_layer_offsets_witness :
    (AssocMap.getVal (SMDPads.addPad witMgr (SMDPads.new 4) witPadA).2.buffer
        (SMDPads.new 4).instanceCount = some (padInstanceMatrix witMgr witPadA) ∧
      (padInstanceMatrix witMgr witPadA).position.y
        = (if witPadA.layer = "top" then getTopCopperZ witMgr else getBottomCopperZ witMgr)) ∧
    (AssocMap.getVal (FlatTraces.addTrace (FlatTraces.new 5000) cexTrace).2.buffer 0
        = AssocMap.getVal (FlatTraces.new 5000).buffer 0 ∨
      ∃ mtx : TraceInstanceMatrix,
        AssocMap.getVal (FlatTraces.addTrace (FlatTraces.new 5000) cexTrace).2.buffer 0
          = some mtx ∧
        mtx.width = cexTrace.width ∧ mtx.layer = cexTrace.layer ∧
        (tracePlacementPos mtx).y
          = (if cexTrace.layer = "top" then (1/100 : ℚ) else -(1/100))) :=
  ⟨placement_layer_offsets.1 witMgr (SMDPads.new 4) witPadA (by decide),
   placement_layer_offsets.2 (FlatTraces.new 5000) cexTrace 0⟩

/-! ## C3: trace decomposition, lengths, angles, metrics -/

theorem sqrt_eval {a b : ℝ} (hb : 0 ≤ b) (h : b * b = a) : Real.sqrt a = b := by
  rw [← h, show b * b = b ^ 2 by ring]
  exact Real.sqrt_sq hb

/-- Board-plane waypoint as a point of the Euclidean plane. -/
noncomputable def toEuclid (v : Vec2) : EuclideanSpace ℝ (Fin 2) :=
  ![(v.x : ℝ), (v.y : ℝ)]

/-- The stored segment length is the Euclidean distance between the waypoint
pair. -/
theorem traceSegment_length_eq_dist (g : TraceSegment) :
    g.length = dist (toEuclid g.startPoint) (toEuclid g.endPoint) := by
  simp only [TraceSegment.length, toEuclid, EuclideanSpace.dist_eq]
  rw [Fin.sum_univ_two]
  simp only [Matrix.cons_val_zero, Matrix.cons_val_one, Matrix.head_cons, Real.dist_eq]
  rw [sq_abs, sq_abs]
  congr 1
  push_cast
  ring

theorem FlatTraces.addTraceLoop_of_capacity (maxI : ℕ) (w : ℚ) (lay : String) :
    ∀ (points : List Vec2) (count : ℕ) (buf : AssocMap ℕ TraceInstanceMatrix),
      count + (points.length - 1) ≤ maxI →
      (FlatTraces.addTraceLoop maxI w lay points count buf).1.map
          (fun g => (g.startPoint, g.endPoint)) = points.zip points.tail ∧
      (FlatTraces.addTraceLoop maxI w lay points count buf).1.length
        = points.length - 1 ∧
      (FlatTraces.addTraceLoop maxI w lay points count buf).2.1
        = count + (points.length - 1) ∧
      (∀ g ∈ (FlatTraces.addTraceLoop maxI w lay points count buf).1, g.width = w) := by
  intro points
  induction points with
  | nil =>
    intro count buf hcap
    exact ⟨rfl, rfl, rfl, by intro g hg; simp [FlatTraces.addTraceLoop] at hg⟩
  | cons p1 tl ih =>
    intro count buf hcap
    match tl with
    | [] =>
      exact ⟨rfl, rfl, rfl, by intro g hg; simp [FlatTraces.addTraceLoop] at hg⟩
    | p2 :: rest =>
      have hlt : count < maxI := by
        simp only [List.length_cons] at hcap
        omega
      have hge : ¬ (count ≥ maxI) := not_le.mpr hlt
      have hloop : FlatTraces.addTraceLoop maxI w lay (p1 :: p2 :: rest) count buf
          = let segment : TraceSegment :=
              { startPoint := p1, endPoint := p2, width := w, instanceId := count }
            let buf' := AssocMap.setVal buf count ⟨p1, p2, w, lay⟩
            let r := FlatTraces.addTraceLoop maxI w lay (p2 :: rest) (count + 1) buf'
            (segment :: r.1, r.2) := by
        simp [FlatTraces.addTraceLoop, hge]
      have hcap' : count + 1 + ((p2 :: rest).length - 1) ≤ maxI := by
        simp only [List.length_cons] at hcap ⊢
        omega
      obtain ⟨ihzip, ihlen, ihcount, ihwidth⟩ :=
        ih (count + 1) (AssocMap.setVal buf count ⟨p1, p2, w, lay⟩) hcap'
      rw [hloop]
      refine ⟨?_, ?_, ?_, ?_⟩
      · simp only [List.map_cons, List.zip_cons_cons, List.tail_cons]
        rw [ihzip]
        rfl
      · simp only [List.length_cons]
        rw [ihlen]
        simp only [List.length_cons]
        omega
      · simp only [List.length_cons]
        rw [ihcount]
        simp only [List.length_cons]
        omega
      · intro g hg
        simp only [List.mem_cons] at hg
        rcases hg with hg | hg
        · subst hg; rfl
        · exact ihwidth g hg

/-- Demo trace from the spec's metric property. -/
def demoTrace : TraceData :=
  { id := "trace1", points := [⟨0, 0⟩, ⟨10, 0⟩, ⟨10, 10⟩], width := 1,
    layer := "top", name := none }

def demoState : FlatTraces :=
  (FlatTraces.addTrace (FlatTraces.new 5000) demoTrace).2

/-- C3: a trace fitting within remaining capacity decomposes into exactly
N-1 segments (one per consecutive waypoint pair, in order, all with the
trace's width); every segment's stored length is the Euclidean distance of
its waypoint pair and its stored angle is `atan2(dz, dx)`; concretely, the
trace `[(0,0),(10,0),(10,10)]` with width 1 added to an empty store yields 2
segments of length 10, `calculateTraceLength` returns 20,
`calculateTraceArea` returns 20, and both queries return 0 for an unknown
id. -/
theorem trace_decomposition_metrics :
    (∀ (s : FlatTraces) (t : TraceData),
      s.instanceCount + (t.points.length - 1) ≤ s.maxInstances →
      (FlatTraces.addTrace s t).1 = true ∧
      ∃ segs : List TraceSegment,
        AssocMap.getVal (FlatTraces.addTrace s t).2.traceSegments t.id = some segs ∧
        segs.length = t.points.length - 1 ∧
        segs.map (fun g => (g.startPoint, g.endPoint)) = t.points.zip t.points.tail ∧
        (∀ g ∈ segs, g.width = t.width)) ∧
    (∀ g : TraceSegment,
      g.length = dist (toEuclid g.startPoint) (toEuclid g.endPoint) ∧
      g.angle = atan2 ((g.endPoint.y - g.startPoint.y : ℚ) : ℝ)
                      ((g.endPoint.x - g.startPoint.x : ℚ) : ℝ)) ∧
    ((∃ segs : List TraceSegment,
        AssocMap.getVal demoState.traceSegments "trace1" = some segs ∧
        segs.length = 2 ∧ ∀ g ∈ segs, g.length = 10) ∧
      FlatTraces.calculateTraceLength demoState "trace1" = 20 ∧
      FlatTraces.calculateTraceArea demoState "trace1" = 20 ∧
      FlatTraces.calculateTraceLength demoState "zzz" = 0 ∧
      FlatTraces.calculateTraceArea demoState "zzz" = 0) := by
  have hlen1 : TraceSegment.length ⟨⟨0, 0⟩, ⟨10, 0⟩, 1, 0⟩ = 10 := by
    simp only [TraceSegment.length]
    apply sqrt_eval (by norm_num)
    push_cast
    norm_num
  have hlen2 : TraceSegment.length ⟨⟨10, 0⟩, ⟨10, 10⟩, 1, 1⟩ = 10 := by
    simp only [TraceSegment.length]
    apply sqrt_eval (by norm_num)
    push_cast
    norm_num
  have hsegs : AssocMap.getVal demoState.traceSegments "trace1"
      = some [⟨⟨0, 0⟩, ⟨10, 0⟩, 1, 0⟩, ⟨⟨10, 0⟩, ⟨10, 10⟩, 1, 1⟩] := by
    decide
  have hnone : AssocMap.getVal demoState.traceSegments "zzz" = none := by
    decide
  refine ⟨?_, ?_, ?_, ?_, ?_, ?_, ?_⟩
  · intro s t hcap
    obtain ⟨hzip, hlen, hcount, hwidth⟩ :=
      FlatTraces.addTraceLoop_of_capacity s.maxInstances t.width t.layer
        t.points s.instanceCount s.buffer hcap
    refine ⟨rfl, ⟨(FlatTraces.addTraceLoop s.maxInstances t.width t.layer
      t.points s.instanceCount s.buffer).1, ?_, hlen, hzip, hwidth⟩⟩
    simp only [FlatTraces.addTrace]
    exact AssocMap.getVal_setVal_self _ _ _
  · intro g
    exact ⟨traceSegment_length_eq_dist g, rfl⟩
  · refine ⟨[⟨⟨0, 0⟩, ⟨10, 0⟩, 1, 0⟩, ⟨⟨10, 0⟩, ⟨10, 10⟩, 1, 1⟩], hsegs, rfl, ?_⟩
    intro g hg
    simp only [List.mem_cons, List.not_mem_nil, or_false] at hg
    rcases hg with hg | hg <;> subst hg
    · exact hlen1
    · exact hlen2
  · simp only [FlatTraces.calculateTraceLength, hsegs, Option.getD_some,
      List.foldl_cons, List.foldl_nil]
    rw [hlen1, hlen2]
    norm_num
  · simp only [FlatTraces.calculateTraceArea, hsegs, Option.getD_some,
      List.foldl_cons, List.foldl_nil]
    rw [hlen1, hlen2]
    norm_num
  · simp [FlatTraces.calculateTraceLength, hnone]
  · simp [FlatTraces.calculateTraceArea, hnone]

/-- Witness for C3: the general decomposition facts applied to the concrete
demo trace on an empty store. -/
theorem trace_decomposition_metrics_witness :
    (FlatTraces.addTrace (FlatTraces.new 5000) demoTrace).1 = true ∧
    ∃ segs : List TraceSegment,
      AssocMap.getVal (FlatTraces.addTrace (FlatTraces.new 5000) demoTrace).2.traceSegments
          demoTrace.id = some segs ∧
      segs.length = demoTrace.points.length - 1 ∧
      segs.map (fun g => (g.startPoint, g.endPoint))
        = demoTrace.points.zip demoTrace.points.tail ∧
      (∀ g ∈ segs, g.width = demoTrace.width) :=
  trace_decomposition_metrics.1 (FlatTraces.new 5000) demoTrace (by decide)

/-! ## Serialization boundary (typed document level)

Embedded from the `Serialization` class of the save/load manager together
with `Board.updateDimensions` and the import helpers.  JavaScript string
tests are modelled on character lists: `jsStartsWith` is
`String.prototype.startsWith` and `jsReplaceFirst` is
`String.prototype.replace` with a string pattern, which replaces only the
first occurrence.  JavaScript truthiness guards (`!data.width`,
`!data.diameter`, `data.layer || 'top'`, `data.rotation || 0`) are modelled
by `jsOrString` / `jsOrRat` and explicit zero tests. -/

def jsStartsWith (s pat : String) : Bool := pat.data.isPrefixOf s.data

def replaceFirstAux (pat repl : List Char) : List Char → List Char
  | [] => []
  | c :: rest =>
    if pat.isPrefixOf (c :: rest) then repl ++ (c :: rest).drop pat.length
    else c :: replaceFirstAux pat repl rest

def jsReplaceFirst (s pat repl : String) : String :=
  ⟨replaceFirstAux pat.data repl.data s.data⟩

/-- JavaScript `o || dflt` on an optional string: `undefined` and the empty
string are falsy. -/
def jsOrString (o : Option String) (dflt : String) : String :=
  match o with
  | some s => if s = "" then dflt else s
  | none => dflt

/-- JavaScript `o || dflt` on an optional number: `undefined` and `0` are
falsy. -/
def jsOrRat (o : Option ℚ) (dflt : ℚ) : ℚ :=
  match o with
  | some r => if r = 0 then dflt else r
  | none => dflt

structure BoardDims where
  width : ℚ
  height : ℚ
  thickness : ℚ
deriving DecidableEq

/-- Serialized component record (`PCBComponentData`); absent JSON fields are
`none`. -/
structure PCBComponentData where
  id : String
  type : String
  pos : Vec3
  size : Option Vec2 := none
  points : Option (List Vec2) := none
  width : Option ℚ := none
  layer : Option String := none
  rotation : Option ℚ := none
  diameter : Option ℚ := none
deriving DecidableEq

structure PCBBoardData where
  board : BoardDims
  components : List PCBComponentData
deriving DecidableEq

/-- The live engine state the serialization boundary reads and writes: board
dimensions, the (shared) copper layer manager, and the three stores. -/
structure EngineState where
  board : BoardDims
  clm : CopperLayerManager
  pads : SMDPads
  traces : FlatTraces
  holes : ThroughHoles
deriving DecidableEq

/-- `Board.updateDimensions`: resizes the substrate and pushes the new
thickness into the copper layer manager. -/
def Board.updateDimensions (st : EngineState) (w h t : ℚ) : EngineState :=
  { st with board := ⟨w, h, t⟩, clm := updateBoardThickness st.clm t }

/-- Document component produced by `exportBoard` for one pad.
(`pad.rotation || 0` is the identity on rationals and is written as such.) -/
def exportPadComp (pad : SMDDPadData) : PCBComponentData :=
  { id := pad.id, type := "smd_" ++ pad.type, pos := pad.position,
    size := some pad.size, layer := some pad.layer,
    rotation := some pad.rotation }

/-- Document component produced by `exportBoard` for one trace. -/
def exportTraceComp (t : TraceData) : PCBComponentData :=
  { id := t.id, type := "path",
    pos := ⟨0, if t.layer = "top" then 1/100 else -(1/100), 0⟩,
    points := some t.points, width := some t.width, layer := some t.layer }

/-- Document component produced by `exportBoard` for one hole. -/
def exportHoleComp (h : ThroughHoleData) : PCBComponentData :=
  { id := h.id, type := "drill", pos := h.position,
    diameter := some h.diameter }

/-- `Serialization.exportBoard`: maps every pad, trace and hole record to its
document component. -/
def exportBoard (st : EngineState) : PCBBoardData :=
  { board := st.board,
    components :=
      (SMDPads.getAllPads st.pads).map exportPadComp
      ++ (FlatTraces.getAllTraces st.traces).map exportTraceComp
      ++ (ThroughHoles.getAllHoles st.holes).map exportHoleComp }

/-- `Serialization.importSMDPad`: skipped unless the type is `smd_*` and a
size is present; rebuilds the pad record and adds it through the manager. -/
def importSMDPad (c : PCBComponentData) (st : EngineState) : EngineState :=
  match c.size with
  | none => st
  | some sz =>
    if jsStartsWith c.type "smd_" then
      let padData : SMDDPadData :=
        { id := c.id, type := jsReplaceFirst c.type "smd_" "",
          position := c.pos, size := sz,
          layer := jsOrString c.layer "top",
          rotation := jsOrRat c.rotation 0 }
      { st with pads := (SMDPads.addPad st.clm st.pads padData).2 }
    else st

/-- `Serialization.importFlatTrace`: skipped unless the type is `path` and
both points and a truthy (nonzero) width are present. -/
def importFlatTrace (c : PCBComponentData) (st : EngineState) : EngineState :=
  match c.points, c.width with
  | some pts, some w =>
    if c.type = "path" ∧ w ≠ 0 then
      let traceData : TraceData :=
        { id := c.id, points := pts, width := w,
          layer := jsOrString c.layer "top", name := none }
      { st with traces := (FlatTraces.addTrace st.traces traceData).2 }
    else st
  | _, _ => st

/-- `Serialization.importDrill`: skipped unless the type is `drill` and the
diameter is present and truthy (nonzero); only x and z of `pos` are used. -/
def importDrill (c : PCBComponentData) (st : EngineState) : EngineState :=
  match c.diameter with
  | some d =>
    if c.type = "drill" ∧ d ≠ 0 then
      { st with
        holes := (ThroughHoleManager.addHole st.clm st.holes c.id c.pos.x c.pos.z d).2 }
    else st
  | none => st

/-- Per-component dispatch of `Serialization.importBoard`. -/
def importComponent (st : EngineState) (c : PCBComponentData) : EngineState :=
  if jsStartsWith c.type "smd_" then importSMDPad c st
  else if c.type = "path" then importFlatTrace c st
  else if c.type = "drill" then importDrill c st
  else st

/-- `Serialization.clearBoard`: wipes the three stores (the resource-ledger
bookkeeping it also performs is modelled in the ResourceLedger section). -/
def clearBoard (st : EngineState) : EngineState :=
  { st with pads := SMDPads.clear st.pads,
            traces := FlatTraces.clear st.traces,
            holes := ThroughHoles.clear st.holes }

/-- `Serialization.importBoard`: clear, resize, then rebuild each component. -/
def importBoard (data : PCBBoardData) (st : EngineState) : EngineState :=
  let st1 := clearBoard st
  let st2 := Board.updateDimensions st1 data.board.width data.board.height
    data.board.thickness
  data.components.foldl importComponent st2

/-! ## Round-trip lemmas -/

theorem jsStartsWith_append (p t : String) : jsStartsWith (p ++ t) p = true := by
  simp only [jsStartsWith, String.data_append, List.isPrefixOf_iff_prefix]
  exact List.prefix_append _ _

theorem jsReplaceFirst_append (p t : String) (hp : p.data ≠ []) :
    jsReplaceFirst (p ++ t) p "" = t := by
  unfold jsReplaceFirst
  match hpd : p.data with
  | [] => exact absurd hpd hp
  | c :: cs =>
    have hdata : (p ++ t).data = c :: (cs ++ t.data) := by
      rw [String.data_append, hpd]
      rfl
    rw [hdata]
    have hpre : (c :: cs).isPrefixOf (c :: (cs ++ t.data)) = true := by
      rw [List.isPrefixOf_iff_prefix]
      exact List.prefix_append _ _
    simp only [replaceFirstAux, hpd, hpre, if_pos, List.nil_append]
    have : (c :: (cs ++ t.data)) = (c :: cs) ++ t.data := rfl
    rw [this, List.drop_left]

theorem importFold_pads :
    ∀ (pl : List SMDDPadData) (st : EngineState),
      (AssocMap.keysList st.pads.padData ++ pl.map SMDDPadData.id).Nodup →
      st.pads.instanceCount = st.pads.padData.length →
      st.pads.padData.length + pl.length ≤ st.pads.maxInstances →
      (∀ p ∈ pl, p.layer = "top" ∨ p.layer = "bottom") →
      ((pl.map exportPadComp).foldl importComponent st).pads.padData
          = st.pads.padData ++ pl.map (fun p => (p.id, p)) ∧
      ((pl.map exportPadComp).foldl importComponent st).pads.instanceCount
          = st.pads.instanceCount + pl.length ∧
      ((pl.map exportPadComp).foldl importComponent st).pads.maxInstances
          = st.pads.maxInstances ∧
      ((pl.map exportPadComp).foldl importComponent st).traces = st.traces ∧
      ((pl.map exportPadComp).foldl importComponent st).holes = st.holes ∧
      ((pl.map exportPadComp).foldl importComponent st).board = st.board ∧
      ((pl.map exportPadComp).foldl importComponent st).clm = st.clm := by
  intro pl
  induction pl with
  | nil =>
    intro st hnd hcount hcap hlay
    exact ⟨by simp, by simp, rfl, rfl, rfl, rfl, rfl⟩
  | cons p rest ih =>
    intro st hnd hcount hcap hlay
    have hfresh : AssocMap.getVal st.pads.padData p.id = none := by
      apply AssocMap.getVal_eq_none_of_not_mem_keys
      intro hmem
      exact (List.nodup_append.mp hnd).2.2 hmem (by simp)
    have hlt : st.pads.instanceCount < st.pads.maxInstances := by
      simp only [List.length_cons] at hcap
      omega
    have hcond : ¬ (st.pads.instanceCount ≥ st.pads.maxInstances) := not_le.mpr hlt
    have hsw : jsStartsWith ("smd_" ++ p.type) "smd_" = true :=
      jsStartsWith_append "smd_" p.type
    have hlayer : jsOrString (some p.layer) "top" = p.layer := by
      rcases hlay p (by simp) with h | h <;> simp [jsOrString, h]
    have hrot : jsOrRat (some p.rotation) 0 = p.rotation := by
      by_cases h : p.rotation = 0 <;> simp [jsOrRat, h]
    have hrepl : jsReplaceFirst ("smd_" ++ p.type) "smd_" "" = p.type :=
      jsReplaceFirst_append "smd_" p.type (by decide)
    have hstep : importComponent st (exportPadComp p)
        = { st with pads := (SMDPads.addPad st.clm st.pads p).2 } := by
      simp [importComponent, exportPadComp, importSMDPad, hsw, hrepl, hlayer, hrot]
    have hpads : (SMDPads.addPad st.clm st.pads p).2
        = { st.pads with
            padData := st.pads.padData ++ [(p.id, p)]
            buffer := AssocMap.setVal st.pads.buffer st.pads.instanceCount
              (padInstanceMatrix st.clm p)
            edgeBuffer := AssocMap.setVal st.pads.edgeBuffer st.pads.instanceCount
              (padInstanceMatrix st.clm p)
            instanceCount := st.pads.instanceCount + 1
            meshCount := st.pads.instanceCount + 1
            edgeMeshCount := st.pads.instanceCount + 1 } := by
      simp only [SMDPads.addPad, if_neg hcond]
      rw [AssocMap.setVal_of_not_mem hfresh]
    have h₁pad : (importComponent st (exportPadComp p)).pads.padData
        = st.pads.padData ++ [(p.id, p)] := by
      rw [hstep, hpads]
    have h₁count : (importComponent st (exportPadComp p)).pads.instanceCount
        = st.pads.instanceCount + 1 := by
      rw [hstep, hpads]
    have h₁max : (importComponent st (exportPadComp p)).pads.maxInstances
        = st.pads.maxInstances := by
      rw [hstep, hpads]
    have h₁tr : (importComponent st (exportPadComp p)).traces = st.traces := by
      rw [hstep]
    have h₁ho : (importComponent st (exportPadComp p)).holes = st.holes := by
      rw [hstep]
    have h₁bd : (importComponent st (exportPadComp p)).board = st.board := by
      rw [hstep]
    have h₁clm : (importComponent st (exportPadComp p)).clm = st.clm := by
      rw [hstep]
    have hnd₁ : (AssocMap.keysList (importComponent st (exportPadComp p)).pads.padData
        ++ rest.map SMDDPadData.id).Nodup := by
      rw [h₁pad, AssocMap.keysList_append]
      have h1 : AssocMap.keysList [(p.id, p)] = [p.id] := rfl
      rw [h1, List.append_assoc]
      simpa using hnd
    have hcount₁ : (importComponent st (exportPadComp p)).pads.instanceCount
        = (importComponent st (exportPadComp p)).pads.padData.length := by
      rw [h₁pad, h₁count]
      simp [hcount]
    have hcap₁ : (importComponent st (exportPadComp p)).pads.padData.length + rest.length
        ≤ (importComponent st (exportPadComp p)).pads.maxInstances := by
      rw [h₁pad, h₁max]
      simp only [List.length_append, List.length_cons, List.length_nil] at hcap ⊢
      omega
    have hlay₁ : ∀ q ∈ rest, q.layer = "top" ∨ q.layer = "bottom" := by
      intro q hq
      exact hlay q (by simp [hq])
    have hfoldstep : ((p :: rest).map exportPadComp).foldl importComponent st
        = (rest.map exportPadComp).foldl importComponent
            (importComponent st (exportPadComp p)) := by
      simp only [List.map_cons, List.foldl_cons]
    obtain ⟨ihpad, ihcount, ihmax, ihtr, ihho, ihbd, ihclm⟩ :=
      ih (importComponent st (exportPadComp p)) hnd₁ hcount₁ hcap₁ hlay₁
    rw [hfoldstep]
    refine ⟨?_, ?_, ?_, ?_, ?_, ?_, ?_⟩
    · rw [ihpad, h₁pad]
      simp [List.append_assoc]
    · rw [ihcount, h₁count]
      simp only [List.length_cons]
      omega
    · rw [ihmax, h₁max]
    · rw [ihtr, h₁tr]
    · rw [ihho, h₁ho]
    · rw [ihbd, h₁bd]
    · rw [ihclm, h₁clm]

theorem importFold_traces :
    ∀ (tl : List TraceData) (st : EngineState),
      (AssocMap.keysList st.traces.traces ++ tl.map TraceData.id).Nodup →
      (∀ t ∈ tl, t.width ≠ 0) →
      (∀ t ∈ tl, t.layer = "top" ∨ t.layer = "bottom") →
      ((tl.map exportTraceComp).foldl importComponent st).traces.traces
          = st.traces.traces ++ tl.map (fun t => (t.id, { t with name := none })) ∧
      ((tl.map exportTraceComp).foldl importComponent st).pads = st.pads ∧
      ((tl.map exportTraceComp).foldl importComponent st).holes = st.holes ∧
      ((tl.map exportTraceComp).foldl importComponent st).board = st.board ∧
      ((tl.map exportTraceComp).foldl importComponent st).clm = st.clm := by
  intro tl
  induction tl with
  | nil =>
    intro st hnd hw hlay
    exact ⟨by simp, rfl, rfl, rfl, rfl⟩
  | cons t rest ih =>
    intro st hnd hw hlay
    have hfresh : AssocMap.getVal st.traces.traces t.id = none := by
      apply AssocMap.getVal_eq_none_of_not_mem_keys
      intro hmem
      exact (List.nodup_append.mp hnd).2.2 hmem (by simp)
    have hnsw : jsStartsWith "path" "smd_" = false := by decide
    have hlayer : jsOrString (some t.layer) "top" = t.layer := by
      rcases hlay t (by simp) with h | h <;> simp [jsOrString, h]
    have hwt : t.width ≠ 0 := hw t (by simp)
    have hstep : importComponent st (exportTraceComp t)
        = { st with traces := (FlatTraces.addTrace st.traces
            { t with name := none }).2 } := by
      simp [importComponent, exportTraceComp, importFlatTrace, hnsw, hlayer, hwt]
    have htr : (importComponent st (exportTraceComp t)).traces.traces
        = st.traces.traces ++ [(t.id, { t with name := none })] := by
      rw [hstep]
      show (AssocMap.setVal st.traces.traces t.id { t with name := none }) = _
      exact AssocMap.setVal_of_not_mem hfresh _
    have hnd₁ : (AssocMap.keysList (importComponent st (exportTraceComp t)).traces.traces
        ++ rest.map TraceData.id).Nodup := by
      rw [htr, AssocMap.keysList_append]
      have h1 : AssocMap.keysList [(t.id, { t with name := none })] = [t.id] := rfl
      rw [h1, List.append_assoc]
      simpa using hnd
    have hfoldstep : ((t :: rest).map exportTraceComp).foldl importComponent st
        = (rest.map exportTraceComp).foldl importComponent
            (importComponent st (exportTraceComp t)) := by
      simp only [List.map_cons, List.foldl_cons]
    obtain ⟨ihtr, ihpads, ihho, ihbd, ihclm⟩ :=
      ih (importComponent st (exportTraceComp t)) hnd₁
        (fun q hq => hw q (by simp [hq])) (fun q hq => hlay q (by simp [hq]))
    rw [hfoldstep]
    refine ⟨?_, ?_, ?_, ?_, ?_⟩
    · rw [ihtr, htr]
      simp [List.append_assoc]
    · rw [ihpads, hstep]
    · rw [ihho, hstep]
    · rw [ihbd, hstep]
    · rw [ihclm, hstep]

theorem importFold_holes :
    ∀ (hl : List ThroughHoleData) (st : EngineState),
      (AssocMap.keysList st.holes.holeData ++ hl.map ThroughHoleData.id).Nodup →
      st.holes.instanceCount = st.holes.holeData.length →
      st.holes.holeData.length + hl.length ≤ st.holes.maxInstances →
      (∀ h ∈ hl, h.diameter ≠ 0) →
      ((hl.map exportHoleComp).foldl importComponent st).holes.holeData
          = st.holes.holeData ++ hl.map (fun h => (h.id,
              { h with position := ⟨h.position.x, 0, h.position.z⟩,
                       depth := getBoardThickness st.clm + 1/10 })) ∧
      ((hl.map exportHoleComp).foldl importComponent st).pads = st.pads ∧
      ((hl.map exportHoleComp).foldl importComponent st).traces = st.traces ∧
      ((hl.map exportHoleComp).foldl importComponent st).board = st.board ∧
      ((hl.map exportHoleComp).foldl importComponent st).clm = st.clm := by
  intro hl
  induction hl with
  | nil =>
    intro st hnd hcount hcap hd
    exact ⟨by simp, rfl, rfl, rfl, rfl⟩
  | cons h rest ih =>
    intro st hnd hcount hcap hd
    have hfresh : AssocMap.getVal st.holes.holeData h.id = none := by
      apply AssocMap.getVal_eq_none_of_not_mem_keys
      intro hmem
      exact (List.nodup_append.mp hnd).2.2 hmem (by simp)
    have hlt : st.holes.instanceCount < st.holes.maxInstances := by
      simp only [List.length_cons] at hcap
      omega
    have hcond : ¬ (st.holes.instanceCount ≥ st.holes.maxInstances) := not_le.mpr hlt
    have hnsw : jsStartsWith "drill" "smd_" = false := by decide
    have hdia : h.diameter ≠ 0 := hd h (by simp)
    have hstep : importComponent st (exportHoleComp h)
        = { st with holes := (ThroughHoleManager.addHole st.clm st.holes h.id
            h.position.x h.position.z h.diameter).2 } := by
      simp [importComponent, exportHoleComp, importDrill, hnsw, hdia]
    have hrec : (ThroughHoleManager.addHole st.clm st.holes h.id
          h.position.x h.position.z h.diameter).2.holeData
        = st.holes.holeData ++ [(h.id,
            { h with position := ⟨h.position.x, 0, h.position.z⟩,
                     depth := getBoardThickness st.clm + 1/10 })] := by
      simp only [ThroughHoleManager.addHole, ThroughHoles.addHole, if_neg hcond]
      exact AssocMap.setVal_of_not_mem hfresh _
    have hcnt : (ThroughHoleManager.addHole st.clm st.holes h.id
          h.position.x h.position.z h.diameter).2.instanceCount
        = st.holes.instanceCount + 1 := by
      simp [ThroughHoleManager.addHole, ThroughHoles.addHole, hcond]
    have hmax : (ThroughHoleManager.addHole st.clm st.holes h.id
          h.position.x h.position.z h.diameter).2.maxInstances
        = st.holes.maxInstances := by
      simp [ThroughHoleManager.addHole, ThroughHoles.addHole, hcond]
    have h₁rec : (importComponent st (exportHoleComp h)).holes.holeData
        = st.holes.holeData ++ [(h.id,
            { h with position := ⟨h.position.x, 0, h.position.z⟩,
                     depth := getBoardThickness st.clm + 1/10 })] := by
      rw [hstep]
      exact hrec
    have hnd₁ : (AssocMap.keysList (importComponent st (exportHoleComp h)).holes.holeData
        ++ rest.map ThroughHoleData.id).Nodup := by
      rw [h₁rec, AssocMap.keysList_append]
      have h1 : AssocMap.keysList [(h.id,
          { h with position := ⟨h.position.x, 0, h.position.z⟩,
                   depth := getBoardThickness st.clm + 1/10 })] = [h.id] := rfl
      rw [h1, List.append_assoc]
      simpa using hnd
    have hcount₁ : (importComponent st (exportHoleComp h)).holes.instanceCount
        = (importComponent st (exportHoleComp h)).holes.holeData.length := by
      rw [h₁rec, hstep]
      show (ThroughHoleManager.addHole st.clm st.holes h.id
          h.position.x h.position.z h.diameter).2.instanceCount = _
      rw [hcnt]
      simp [hcount]
    have hcap₁ : (importComponent st (exportHoleComp h)).holes.holeData.length + rest.length
        ≤ (importComponent st (exportHoleComp h)).holes.maxInstances := by
      rw [h₁rec, hstep]
      show _ ≤ (ThroughHoleManager.addHole st.clm st.holes h.id
          h.position.x h.position.z h.diameter).2.maxInstances
      rw [hmax]
      simp only [List.length_append, List.length_cons, List.length_nil] at hcap ⊢
      omega
    have hclm₁ : (importComponent st (exportHoleComp h)).clm = st.clm := by
      rw [hstep]
    have hfoldstep : ((h :: rest).map exportHoleComp).foldl importComponent st
        = (rest.map exportHoleComp).foldl importComponent
            (importComponent st (exportHoleComp h)) := by
      simp only [List.map_cons, List.foldl_cons]
    obtain ⟨ihrec, ihpads, ihtr, ihbd, ihclm⟩ :=
      ih (importComponent st (exportHoleComp h)) hnd₁ hcount₁ hcap₁
        (fun q hq => hd q (by simp [hq]))
    rw [hfoldstep]
    refine ⟨?_, ?_, ?_, ?_, ?_⟩
    · rw [ihrec, h₁rec, hclm₁]
      simp [List.append_assoc]
    · rw [ihpads, hstep]
    · rw [ihtr, hstep]
    · rw [ihbd, hstep]
    · rw [ihclm, hstep]

theorem values_pair_map {α : Type} (m : AssocMap String α) (key : α → String) (f : α → α)
    (hkm : ∀ e ∈ m, key e.2 = e.1) :
    (AssocMap.values m).map (fun v => (key v, f v)) = m.map (fun e => (e.1, f e.2)) := by
  simp only [AssocMap.values, List.map_map]
  apply List.map_congr_left
  intro e he
  simp only [Function.comp]
  rw [hkm e he]

/-- C7 (amended): importing the exported document restores the pad records
exactly and the trace / hole records on every field the document carries
(traces lose only their optional display name; holes get their derived depth
recomputed from the imported thickness), provided ids are unique per kind,
pad and hole counts fit their capacities, every pad and trace layer is
`top`/`bottom`, every trace has nonzero width, and every hole has nonzero
diameter and was authored at y = 0 (as the hole manager guarantees).
Zero-width traces and zero-diameter holes are dropped by the import's
truthiness guards, which is what makes the nonzero hypotheses necessary. -/
theorem export_import_roundtrip (st : EngineState)
    (hpknd : (AssocMap.keysList st.pads.padData).Nodup)
    (hpkm : ∀ e ∈ st.pads.padData, e.2.id = e.1)
    (hpcap : st.pads.padData.length ≤ st.pads.maxInstances)
    (hplay : ∀ p ∈ AssocMap.values st.pads.padData, p.layer = "top" ∨ p.layer = "bottom")
    (htknd : (AssocMap.keysList st.traces.traces).Nodup)
    (htkm : ∀ e ∈ st.traces.traces, e.2.id = e.1)
    (htw : ∀ t ∈ AssocMap.values st.traces.traces, t.width ≠ 0)
    (htlay : ∀ t ∈ AssocMap.values st.traces.traces, t.layer = "top" ∨ t.layer = "bottom")
    (hhknd : (AssocMap.keysList st.holes.holeData).Nodup)
    (hhkm : ∀ e ∈ st.holes.holeData, e.2.id = e.1)
    (hhcap : st.holes.holeData.length ≤ st.holes.maxInstances)
    (hhd : ∀ h ∈ AssocMap.values st.holes.holeData, h.diameter ≠ 0)
    (hhy : ∀ h ∈ AssocMap.values st.holes.holeData, h.position.y = 0) :
    (importBoard (exportBoard st) st).pads.padData = st.pads.padData ∧
    (importBoard (exportBoard st) st).traces.traces
      = st.traces.traces.map (fun e => (e.1, { e.2 with name := none })) ∧
    (importBoard (exportBoard st) st).holes.holeData
      = st.holes.holeData.map (fun e => (e.1,
          { e.2 with depth := st.board.thickness + 1/10 })) ∧
    (importBoard (exportBoard st) st).board = st.board := by
  have hunfold : importBoard (exportBoard st) st
      = ((AssocMap.values st.holes.holeData).map exportHoleComp).foldl importComponent
          (((AssocMap.values st.traces.traces).map exportTraceComp).foldl importComponent
            (((AssocMap.values st.pads.padData).map exportPadComp).foldl importComponent
              (Board.updateDimensions (clearBoard st) st.board.width st.board.height
                st.board.thickness))) := by
    simp only [importBoard, exportBoard, SMDPads.getAllPads, FlatTraces.getAllTraces,
      ThroughHoles.getAllHoles, List.foldl_append]
  have hST2pad : (Board.updateDimensions (clearBoard st) st.board.width st.board.height
      st.board.thickness).pads = SMDPads.clear st.pads := rfl
  have hST2tr : (Board.updateDimensions (clearBoard st) st.board.width st.board.height
      st.board.thickness).traces = FlatTraces.clear st.traces := rfl
  have hST2ho : (Board.updateDimensions (clearBoard st) st.board.width st.board.height
      st.board.thickness).holes = ThroughHoles.clear st.holes := rfl
  have hST2bd : (Board.updateDimensions (clearBoard st) st.board.width st.board.height
      st.board.thickness).board = st.board := rfl
  have hST2clm : (Board.updateDimensions (clearBoard st) st.board.width st.board.height
      st.board.thickness).clm = ⟨st.board.thickness⟩ := rfl
  -- Stage A: the pad components repopulate the cleared pad store.
  obtain ⟨hApad, hAcount, hAmax, hAtr, hAho, hAbd, hAclm⟩ :=
    importFold_pads (AssocMap.values st.pads.padData)
      (Board.updateDimensions (clearBoard st) st.board.width st.board.height
        st.board.thickness)
      (by
        rw [hST2pad]
        show (AssocMap.keysList ([] : AssocMap String SMDDPadData)
          ++ (AssocMap.values st.pads.padData).map SMDDPadData.id).Nodup
        rw [values_map_id_of_keysMatch hpkm]
        simpa [AssocMap.keysList] using hpknd)
      (by rw [hST2pad]; rfl)
      (by
        rw [hST2pad]
        show (0 : ℕ) + (AssocMap.values st.pads.padData).length ≤ st.pads.maxInstances
        simpa [AssocMap.values] using hpcap)
      hplay
  -- Stage B: the trace components repopulate the cleared trace store.
  obtain ⟨hBtr, hBpad, hBho, hBbd, hBclm⟩ :=
    importFold_traces (AssocMap.values st.traces.traces)
      (((AssocMap.values st.pads.padData).map exportPadComp).foldl importComponent
        (Board.updateDimensions (clearBoard st) st.board.width st.board.height
          st.board.thickness))
      (by
        rw [hAtr, hST2tr]
        show (AssocMap.keysList ([] : AssocMap String TraceData)
          ++ (AssocMap.values st.traces.traces).map TraceData.id).Nodup
        have : (AssocMap.values st.traces.traces).map TraceData.id
            = AssocMap.keysList st.traces.traces := by
          simp only [AssocMap.values, AssocMap.keysList, List.map_map]
          exact List.map_congr_left htkm
        rw [this]
        simpa [AssocMap.keysList] using htknd)
      htw htlay
  -- Stage C: the hole components repopulate the cleared hole store.
  obtain ⟨hCho, hCpad, hCtr, hCbd, hCclm⟩ :=
    importFold_holes (AssocMap.values st.holes.holeData)
      (((AssocMap.values st.traces.traces).map exportTraceComp).foldl importComponent
        (((AssocMap.values st.pads.padData).map exportPadComp).foldl importComponent
          (Board.updateDimensions (clearBoard st) st.board.width st.board.height
            st.board.thickness)))
      (by
        rw [hBho, hAho, hST2ho]
        show (AssocMap.keysList ([] : AssocMap String ThroughHoleData)
          ++ (AssocMap.values st.holes.holeData).map ThroughHoleData.id).Nodup
        have : (AssocMap.values st.holes.holeData).map ThroughHoleData.id
            = AssocMap.keysList st.holes.holeData := by
          simp only [AssocMap.values, AssocMap.keysList, List.map_map]
          exact List.map_congr_left hhkm
        rw [this]
        simpa [AssocMap.keysList] using hhknd)
      (by rw [hBho, hAho, hST2ho]; rfl)
      (by
        rw [hBho, hAho, hST2ho]
        show (0 : ℕ) + (AssocMap.values st.holes.holeData).length ≤ st.holes.maxInstances
        simpa [AssocMap.values] using hhcap)
      hhd
  rw [hunfold]
  refine ⟨?_, ?_, ?_, ?_⟩
  · rw [hCpad, hBpad, hApad, hST2pad]
    show ([] : AssocMap String SMDDPadData)
        ++ (AssocMap.values st.pads.padData).map (fun p => (p.id, p))
      = st.pads.padData
    rw [List.nil_append]
    exact values_pair_of_keysMatch hpkm
  · rw [hCtr, hBtr, hAtr, hST2tr]
    show ([] : AssocMap String TraceData)
        ++ (AssocMap.values st.traces.traces).map
            (fun t => (t.id, { t with name := none }))
      = st.traces.traces.map (fun e => (e.1, { e.2 with name := none }))
    rw [List.nil_append]
    exact values_pair_map st.traces.traces TraceData.id
      (fun t => { t with name := none }) htkm
  · rw [hCho, hBclm, hAclm, hST2clm, hBho, hAho, hST2ho]
    show ([] : AssocMap String ThroughHoleData)
        ++ (AssocMap.values st.holes.holeData).map (fun h => (h.id,
            { h with position := ⟨h.position.x, 0, h.position.z⟩,
                     depth := getBoardThickness ⟨st.board.thickness⟩ + 1/10 }))
      = st.holes.holeData.map (fun e => (e.1,
          { e.2 with depth := st.board.thickness + 1/10 }))
    rw [List.nil_append]
    simp only [AssocMap.values, List.map_map]
    apply List.map_congr_left
    intro e he
    have hy : e.2.position.y = 0 := hhy e.2 (List.mem_map_of_mem Prod.snd he)
    have hv : (⟨e.2.position.x, 0, e.2.position.z⟩ : Vec3) = e.2.position := by
      rw [← hy]
    simp only [Function.comp]
    rw [hhkm e he, hv]
    rfl
  · rw [hCbd, hBbd, hAbd, hST2bd]

/-- Zero-width trace breaking the round trip as claimed. -/
def cexZeroTrace : TraceData :=
  { id := "z", points := [⟨0, 0⟩, ⟨1, 0⟩], width := 0, layer := "top", name := none }

def cexState : EngineState :=
  { board := ⟨100, 80, 2⟩, clm := ⟨2⟩, pads := SMDPads.new 1000,
    traces := (FlatTraces.addTrace (FlatTraces.new 5000) cexZeroTrace).2,
    holes := ThroughHoles.new 2000 }

/-- Counterexample for C7 as stated: a store state reachable by adds with
distinct ids that contains a width-0 trace is not restored by
import-of-export — the trace is silently dropped by the import guard
`!data.width`. -/
theorem roundtrip_drops_zero_width_trace :
    AssocMap.getVal cexState.traces.traces "z" = some cexZeroTrace ∧
    AssocMap.getVal (importBoard (exportBoard cexState) cexState).traces.traces "z"
      = none := by
  constructor
  · decide
  · decide

def witEngineState : EngineState :=
  { board := ⟨100, 80, 2⟩, clm := ⟨2⟩,
    pads := (SMDPads.addPad ⟨2⟩ (SMDPads.new 1000) witPadA).2,
    traces := (FlatTraces.addTrace (FlatTraces.new 5000) cexTrace).2,
    holes := (ThroughHoleManager.addHole ⟨2⟩ (ThroughHoles.new 2000) "h" 1 2 1).2 }

/-- Witness for C7: the round trip restores a concrete one-pad, one-trace,
one-hole board. -/
theorem export_import_roundtrip_witness :
    (importBoard (exportBoard witEngineState) witEngineState).pads.padData
      = witEngineState.pads.padData ∧
    (importBoard (exportBoard witEngineState) witEngineState).traces.traces
      = witEngineState.traces.traces.map (fun e => (e.1, { e.2 with name := none })) ∧
    (importBoard (exportBoard witEngineState) witEngineState).holes.holeData
      = witEngineState.holes.holeData.map (fun e => (e.1,
          { e.2 with depth := witEngineState.board.thickness + 1/10 })) ∧
    (importBoard (exportBoard witEngineState) witEngineState).board
      = witEngineState.board :=
  export_import_roundtrip witEngineState
    (by decide) (by decide) (by decide) (by decide)
    (by decide) (by decide) (by decide) (by decide)
    (by decide) (by decide) (by decide) (by decide) (by decide)

/-! ## C6: import validation gate

JSON values as handed to `validateBoardData` by `JSON.parse`.  JavaScript
semantics modelled: `typeof x === 'object'` is true for null, arrays and
objects; truthiness treats `null`, `false`, `0` and `""` as falsy; property
access on a non-object or a missing key yields `undefined`, modelled as
`none`. -/

inductive JValue where
  | null : JValue
  | bool (b : Bool) : JValue
  | num (q : ℚ) : JValue
  | str (s : String) : JValue
  | arr (elems : List JValue) : JValue
  | obj (fields : List (String × JValue)) : JValue

def JValue.isTruthy : JValue → Bool
  | .null => false
  | .bool b => b
  | .num q => decide (q ≠ 0)
  | .str s => decide (s ≠ "")
  | .arr _ => true
  | .obj _ => true

def JValue.typeofObject : JValue → Bool
  | .null => true
  | .arr _ => true
  | .obj _ => true
  | _ => false

def JValue.getField : JValue → String → Option JValue
  | .obj fields, k => AssocMap.getVal fields k
  | _, _ => none

def isStringField (v : Option JValue) : Bool :=
  match v with
  | some (.str _) => true
  | _ => false

def isNumField (v : Option JValue) : Bool :=
  match v with
  | some (.num _) => true
  | _ => false

/-- The source's checks `Array.isArray(obj.pos) && obj.pos.length === 3 &&
obj.pos.every(p => typeof p === 'number')`, combined. -/
def posFieldOk (data : JValue) : Bool :=
  match data.getField "pos" with
  | some (.arr ps) => (ps.length == 3)
      && ps.all (fun p => match p with | .num _ => true | _ => false)
  | _ => false

/-- The source's check `typeof obj.layer === 'string' && (layer === 'top' ||
layer === 'bottom')`. -/
def layerFieldOk (data : JValue) : Bool :=
  match data.getField "layer" with
  | some (.str l) => (l == "top") || (l == "bottom")
  | _ => false

/-- The source's check `Array.isArray(obj.size) && size.length === 2 &&
size.every(s => typeof s === 'number')`. -/
def sizeFieldOk (data : JValue) : Bool :=
  match data.getField "size" with
  | some (.arr ss) => (ss.length == 2)
      && ss.all (fun s' => match s' with | .num _ => true | _ => false)
  | _ => false

/-- The source's check `Array.isArray(obj.points) && obj.points.length >= 2`
— note the element shape is NOT checked. -/
def pointsFieldLenOk (data : JValue) : Bool :=
  match data.getField "points" with
  | some (.arr pts) => decide (2 ≤ pts.length)
  | _ => false

/-- `Serialization.validateComponentData`, mirroring the early-return
chain. -/
def validateComponentData (data : JValue) : Bool :=
  if !(data.isTruthy && data.typeofObject) then false
  else if !(isStringField (data.getField "id") && isStringField (data.getField "type")
      && posFieldOk data) then false
  else
    match data.getField "type" with
    | some (.str ty) =>
      if jsStartsWith ty "smd_" then layerFieldOk data && sizeFieldOk data
      else if ty == "path" then
        layerFieldOk data && isNumField (data.getField "width") && pointsFieldLenOk data
      else if ty == "drill" then isNumField (data.getField "diameter")
      else false
    | _ => false

/-- `Serialization.validateBoardData`. -/
def validateBoardData (data : JValue) : Bool :=
  if !(data.isTruthy && data.typeofObject) then false
  else
    match data.getField "board" with
    | none => false
    | some b =>
      if !(b.isTruthy && b.typeofObject) then false
      else if !(isNumField (b.getField "width") && isNumField (b.getField "height")
          && isNumField (b.getField "thickness")) then false
      else
        match data.getField "components" with
        | some (.arr comps) => comps.all validateComponentData
        | _ => false

/-- Modelled from the claim's validation rules, verbatim: the `path` rule
demands at least 2 two-number points, and no rule restricts the set of
component types. -/
def pointsFieldPairsOk (data : JValue) : Bool :=
  match data.getField "points" with
  | some (.arr pts) => decide (2 ≤ pts.length)
      && pts.all (fun p => match p with
          | .arr [JValue.num _, JValue.num _] => true
          | _ => false)
  | _ => false

def specValidComponent (data : JValue) : Bool :=
  isStringField (data.getField "id") && isStringField (data.getField "type")
  && posFieldOk data
  && (match data.getField "type" with
      | some (.str ty) =>
        (!(jsStartsWith ty "smd_") || (layerFieldOk data && sizeFieldOk data))
        && (!(ty == "path") || (layerFieldOk data
            && isNumField (data.getField "width") && pointsFieldPairsOk data))
        && (!(ty == "drill") || isNumField (data.getField "diameter"))
      | _ => true)

def specValidBoardData (data : JValue) : Bool :=
  (match data.getField "board" with
   | some b => isNumField (b.getField "width") && isNumField (b.getField "height")
       && isNumField (b.getField "thickness")
   | none => false)
  && (match data.getField "components" with
      | some (.arr comps) => comps.all specValidComponent
      | _ => false)

/-- Amended per-component rules: what the gate actually enforces — the
points of a `path` need only be an array of length at least 2 (element shape
unchecked), and a type other than `smd_*` / `path` / `drill` is rejected. -/
def specValidComponentAmended (data : JValue) : Bool :=
  (data.isTruthy && data.typeofObject)
  && (isStringField (data.getField "id") && isStringField (data.getField "type")
      && posFieldOk data)
  && (match data.getField "type" with
      | some (.str ty) =>
        (jsStartsWith ty "smd_" || ty == "path" || ty == "drill")
        && (!(jsStartsWith ty "smd_") || (layerFieldOk data && sizeFieldOk data))
        && (!(ty == "path") || (layerFieldOk data
            && isNumField (data.getField "width") && pointsFieldLenOk data))
        && (!(ty == "drill") || isNumField (data.getField "diameter"))
      | _ => false)

def specValidBoardAmended (data : JValue) : Bool :=
  (data.isTruthy && data.typeofObject)
  && (match data.getField "board" with
      | some b => (b.isTruthy && b.typeofObject)
          && isNumField (b.getField "width") && isNumField (b.getField "height")
          && isNumField (b.getField "thickness")
      | none => false)
  && (match data.getField "components" with
      | some (.arr comps) => comps.all specValidComponentAmended
      | _ => false)

theorem validateComponentData_eq_amended (data : JValue) :
    validateComponentData data = specValidComponentAmended data := by
  unfold validateComponentData specValidComponentAmended
  cases h1 : (data.isTruthy && data.typeofObject) with
  | false => simp [h1]
  | true =>
    cases h2 : (isStringField (data.getField "id")
        && isStringField (data.getField "type") && posFieldOk data) with
    | false => simp [h2]
    | true =>
      simp only [h2, Bool.not_true, Bool.true_and, Bool.not_false, if_false,
        Bool.false_eq_true, if_true]
      rcases h3 : data.getField "type" with _ | jv
      · simp
      · cases jv with
        | str ty =>
          cases hs : jsStartsWith ty "smd_" with
          | true =>
            have hp : (ty == "path") = false := by
              cases hpe : (ty == "path") with
              | false => rfl
              | true =>
                have hty : ty = "path" := eq_of_beq hpe
                subst hty
                exact absurd hs (by decide)
            have hd : (ty == "drill") = false := by
              cases hde : (ty == "drill") with
              | false => rfl
              | true =>
                have hty : ty = "drill" := eq_of_beq hde
                subst hty
                exact absurd hs (by decide)
            simp [hs, hp, hd]
          | false =>
            cases hpe : (ty == "path") with
            | true =>
              have hd : (ty == "drill") = false := by
                have hty : ty = "path" := eq_of_beq hpe
                subst hty
                rfl
              simp [hs, hpe, hd, Bool.and_assoc]
            | false =>
              cases hde : (ty == "drill") with
              | true => simp [hs, hpe, hde]
              | false => simp [hs, hpe, hde]
        | null => simp
        | bool b => simp
        | num q => simp
        | arr xs => simp
        | obj fs => simp

theorem validateBoardData_eq_amended (data : JValue) :
    validateBoardData data = specValidBoardAmended data := by
  have hcomps : ∀ l : List JValue,
      l.all validateComponentData = l.all specValidComponentAmended := by
    intro l
    induction l with
    | nil => rfl
    | cons v rest ih =>
      simp [List.all_cons, validateComponentData_eq_amended v, ih]
  unfold validateBoardData specValidBoardAmended
  cases h1 : (data.isTruthy && data.typeofObject) with
  | false => simp [h1]
  | true =>
    simp only [h1, Bool.not_true, if_false, Bool.true_and, Bool.false_eq_true, if_true]
    rcases h2 : data.getField "board" with _ | b
    · simp
    · cases h3 : (b.isTruthy && b.typeofObject) with
      | false => simp [h3]
      | true =>
        cases h4 : (isNumField (b.getField "width") && isNumField (b.getField "height")
            && isNumField (b.getField "thickness")) with
        | false => simp [h3, h4]
        | true =>
          simp only [h3, h4, Bool.not_true, if_false, Bool.true_and,
            Bool.false_eq_true, if_true, Bool.and_true]
          rcases h5 : data.getField "components" with _ | c
          · simp
          · cases c <;> simp [hcomps]

/-! Decoder from a validated JSON value to the typed board data: it mirrors
the TypeScript cast `data as PCBBoardData` performed after validation.  On
documents that pass validation and whose numeric fields and point pairs are
well-formed it succeeds; the TypeScript throw that a malformed cast would
eventually cause maps to the failure result of `importFromString`. -/

def decodeVec2 : JValue → Option Vec2
  | .arr [.num a, .num b] => some ⟨a, b⟩
  | _ => none

def decodePointList : List JValue → Option (List Vec2)
  | [] => some []
  | v :: rest =>
    match decodeVec2 v, decodePointList rest with
    | some p, some ps => some (p :: ps)
    | _, _ => none

def decodeComponent (v : JValue) : Option PCBComponentData :=
  match v.getField "id", v.getField "type", v.getField "pos" with
  | some (.str id), some (.str ty), some (.arr [.num a, .num b, .num c]) =>
    some { id := id
           type := ty
           pos := ⟨a, b, c⟩
           size := (match v.getField "size" with | some x => decodeVec2 x | none => none)
           points := (match v.getField "points" with
             | some (.arr xs) => decodePointList xs
             | _ => none)
           width := (match v.getField "width" with | some (.num q) => some q | _ => none)
           layer := (match v.getField "layer" with | some (.str s) => some s | _ => none)
           rotation := (match v.getField "rotation" with | some (.num q) => some q | _ => none)
           diameter := (match v.getField "diameter" with | some (.num q) => some q | _ => none) }
  | _, _, _ => none

def decodeComponentList : List JValue → Option (List PCBComponentData)
  | [] => some []
  | v :: rest =>
    match decodeComponent v, decodeComponentList rest with
    | some c, some cs => some (c :: cs)
    | _, _ => none

def decodeBoardData (v : JValue) : Option PCBBoardData :=
  match v.getField "board", v.getField "components" with
  | some b, some (.arr comps) =>
    match b.getField "width", b.getField "height", b.getField "thickness",
        decodeComponentList comps with
    | some (.num w), some (.num h), some (.num t), some cs =>
      some { board := ⟨w, h, t⟩, components := cs }
    | _, _, _, _ => none
  | _, _ => none

/-- `Serialization.importFromString` on an already-parsed JSON value: the
whole document is validated before any store is touched; a validation
failure (or a cast that would throw) leaves the state untouched and reports
the failure. -/
def importFromString (jsonData : JValue) (st : EngineState) :
    EngineState × Option String :=
  if validateBoardData jsonData then
    match decodeBoardData jsonData with
    | some data => (importBoard data st, none)
    | none => (st, some "Import failed.")
  else (st, some "Import failed.")

/-- C6 (amended): the validation gate accepts a document exactly when it is
an object with a numeric-dimension board and a components array in which
every component is an object with string id and type and a 3-number pos,
and the type is `smd_*` with layer in {top,bottom} and a 2-number size, or
`path` with such a layer, numeric width, and a points ARRAY OF LENGTH ≥ 2
whose element shape is not checked, or `drill` with numeric diameter (any
other type is rejected); and a document failing the gate is rejected as a
whole with the engine state left untouched. -/
theorem validation_gate :
    (∀ data : JValue, validateBoardData data = specValidBoardAmended data) ∧
    (∀ (data : JValue) (st : EngineState),
      validateBoardData data = false →
      importFromString data st = (st, some "Import failed.")) := by
  refine ⟨validateBoardData_eq_amended, ?_⟩
  intro data st h
  simp [importFromString, h]

/-- Document accepted by the code's gate but violating the claim's stated
rules (the path component's points are not two-number pairs). -/
def cexDoc : JValue :=
  .obj [("board", .obj [("width", .num 100), ("height", .num 80),
          ("thickness", .num 2)]),
        ("components", .arr [ .obj [("id", .str "t"), ("type", .str "path"),
          ("pos", .arr [.num 0, .num 0, .num 0]), ("layer", .str "top"),
          ("width", .num 1), ("points", .arr [.num 1, .num 2])] ])]

/-- Counterexample for C6 as stated: the gate is not equivalent to the
claim's rules — this document satisfies none of the claim's `path` point
requirements (its points are bare numbers, not 2-number pairs) yet
`validateBoardData` accepts it. -/
theorem validation_gate_not_iff :
    validateBoardData cexDoc = true ∧ specValidBoardData cexDoc = false := by
  constructor
  · decide
  · decide

/-- Witness for C6: the amended equivalence evaluated at the concrete
accepted document, and the rejection of an invalid document (`null`) leaving
a concrete engine state untouched. -/
theorem validation_gate_witness :
    (validateBoardData cexDoc = specValidBoardAmended cexDoc) ∧
    importFromString JValue.null witEngineState
      = (witEngineState, some "Import failed.") :=
  ⟨validation_gate.1 cexDoc,
   validation_gate.2 JValue.null witEngineState (by decide)⟩

/-! ## C8: resource ledger

Embedded from `Serialization`'s resource tracker.  GPU handles are modelled
by numeric identities; a mesh handle carries the identities of its geometry
and (single) material, as the instanced meshes of the stores do.  JavaScript
`Set.add` is insert-if-absent in insertion order, and every
`geometry.dispose()` / `material.dispose()` / `texture.dispose()` call is
emitted as an event so release counts are observable. -/

structure MeshHandle where
  meshId : ℕ
  geometryId : ℕ
  materialId : Option ℕ := none
deriving DecidableEq

structure TrackableComponent where
  instancedMesh : Option MeshHandle := none
  edgeMesh : Option MeshHandle := none
  rectangularGeometry : Option ℕ := none
  circularGeometry : Option ℕ := none
  rectangularEdgeGeometry : Option ℕ := none
  circularEdgeGeometry : Option ℕ := none
  traceMeshes : List MeshHandle := []
  geometryCache : List ℕ := []
deriving DecidableEq

structure ResourceTracker where
  geometries : List ℕ
  materials : List ℕ
  meshes : List MeshHandle
  textures : List ℕ
deriving DecidableEq

def emptyTracker : ResourceTracker :=
  { geometries := [], materials := [], meshes := [], textures := [] }

def setAdd {α : Type} [DecidableEq α] (s : List α) (a : α) : List α :=
  if a ∈ s then s else s ++ [a]

def optAdd {α : Type} [DecidableEq α] (s : List α) : Option α → List α
  | some a => setAdd s a
  | none => s

/-- One iteration of the `traceMeshes.forEach` walk: record the mesh, its
geometry, and its material. -/
def trackMeshPart (t : ResourceTracker) (m : MeshHandle) : ResourceTracker :=
  { t with meshes := setAdd t.meshes m
           geometries := setAdd t.geometries m.geometryId
           materials := optAdd t.materials m.materialId }

/-- `Serialization.trackResources`: record the two instanced meshes, the four
cached geometries, the two mesh materials, then walk `traceMeshes` and the
geometry cache. -/
def trackResources (t : ResourceTracker) (c : TrackableComponent) : ResourceTracker :=
  let meshes1 := optAdd (optAdd t.meshes c.instancedMesh) c.edgeMesh
  let geoms1 :=
    optAdd (optAdd (optAdd (optAdd t.geometries c.rectangularGeometry)
      c.circularGeometry) c.rectangularEdgeGeometry) c.circularEdgeGeometry
  let mats1 :=
    optAdd (optAdd t.materials (c.instancedMesh.bind MeshHandle.materialId))
      (c.edgeMesh.bind MeshHandle.materialId)
  let t3 : ResourceTracker :=
    { geometries := geoms1, materials := mats1, meshes := meshes1, textures := t.textures }
  let t4 := c.traceMeshes.foldl trackMeshPart t3
  { t4 with geometries := c.geometryCache.foldl setAdd t4.geometries }

inductive DisposeEvent where
  | geom (i : ℕ) : DisposeEvent
  | mat (i : ℕ) : DisposeEvent
  | tex (i : ℕ) : DisposeEvent
deriving DecidableEq

/-- The dispose calls the `meshes.forEach` loop makes for one mesh:
`mesh.geometry.dispose()` then `mesh.material.dispose()`. -/
def meshDisposeEvents (m : MeshHandle) : List DisposeEvent :=
  DisposeEvent.geom m.geometryId ::
    (match m.materialId with
     | some i => [DisposeEvent.mat i]
     | none => [])

/-- `Serialization.disposeResources`: dispose the geometry set, the material
set, every tracked mesh's geometry and material, and the texture set, then
clear all four sets. -/
def disposeResources (t : ResourceTracker) : List DisposeEvent × ResourceTracker :=
  (t.geometries.map DisposeEvent.geom
    ++ t.materials.map DisposeEvent.mat
    ++ t.meshes.flatMap meshDisposeEvents
    ++ t.textures.map DisposeEvent.tex,
   emptyTracker)

def TrackerNodup (t : ResourceTracker) : Prop :=
  t.geometries.Nodup ∧ t.materials.Nodup ∧ t.meshes.Nodup ∧ t.textures.Nodup

theorem setAdd_nodup {α : Type} [DecidableEq α] {s : List α} (h : s.Nodup) (a : α) :
    (setAdd s a).Nodup := by
  by_cases hm : a ∈ s
  · simpa [setAdd, hm] using h
  · simp only [setAdd, if_neg hm]
    refine List.Nodup.append h (List.nodup_singleton a) ?_
    intro x hx hx'
    simp only [List.mem_singleton] at hx'
    subst hx'
    exact hm hx

theorem optAdd_nodup {α : Type} [DecidableEq α] {s : List α} (h : s.Nodup) (o : Option α) :
    (optAdd s o).Nodup := by
  cases o with
  | none => exact h
  | some a => exact setAdd_nodup h a

theorem foldl_setAdd_nodup {α : Type} [DecidableEq α] :
    ∀ (l : List α) {s : List α}, s.Nodup → (l.foldl setAdd s).Nodup := by
  intro l
  induction l with
  | nil => intro s h; exact h
  | cons a rest ih => intro s h; exact ih (setAdd_nodup h a)

theorem foldl_trackMeshPart_nodup :
    ∀ (l : List MeshHandle) {t : ResourceTracker},
      TrackerNodup t → TrackerNodup (l.foldl trackMeshPart t) := by
  intro l
  induction l with
  | nil => intro t h; exact h
  | cons m rest ih =>
    intro t h
    exact ih ⟨setAdd_nodup h.1 _, optAdd_nodup h.2.1 _,
      setAdd_nodup h.2.2.1 _, h.2.2.2⟩

theorem trackResources_nodup {t : ResourceTracker} (c : TrackableComponent)
    (h : TrackerNodup t) : TrackerNodup (trackResources t c) := by
  have h3 : TrackerNodup
      ({ geometries :=
          optAdd (optAdd (optAdd (optAdd t.geometries c.rectangularGeometry)
            c.circularGeometry) c.rectangularEdgeGeometry) c.circularEdgeGeometry
         materials :=
          optAdd (optAdd t.materials (c.instancedMesh.bind MeshHandle.materialId))
            (c.edgeMesh.bind MeshHandle.materialId)
         meshes := optAdd (optAdd t.meshes c.instancedMesh) c.edgeMesh
         textures := t.textures } : ResourceTracker) :=
    ⟨optAdd_nodup (optAdd_nodup (optAdd_nodup (optAdd_nodup h.1 _) _) _) _,
     optAdd_nodup (optAdd_nodup h.2.1 _) _,
     optAdd_nodup (optAdd_nodup h.2.2.1 _) _,
     h.2.2.2⟩
  have h4 := foldl_trackMeshPart_nodup c.traceMeshes h3
  exact ⟨foldl_setAdd_nodup c.geometryCache h4.1, h4.2.1, h4.2.2.1, h4.2.2.2⟩

theorem count_mat_map_geom (l : List ℕ) (i : ℕ) :
    (l.map DisposeEvent.geom).count (DisposeEvent.mat i) = 0 := by
  rw [List.count_eq_zero]
  intro h
  rcases List.mem_map.mp h with ⟨g, _, hg⟩
  exact DisposeEvent.noConfusion hg

theorem count_geom_map_mat (l : List ℕ) (g : ℕ) :
    (l.map DisposeEvent.mat).count (DisposeEvent.geom g) = 0 := by
  rw [List.count_eq_zero]
  intro h
  rcases List.mem_map.mp h with ⟨i, _, hi⟩
  exact DisposeEvent.noConfusion hi

theorem count_tex_map_geom (l : List ℕ) (x : ℕ) :
    (l.map DisposeEvent.geom).count (DisposeEvent.tex x) = 0 := by
  rw [List.count_eq_zero]
  intro h
  rcases List.mem_map.mp h with ⟨g, _, hg⟩
  exact DisposeEvent.noConfusion hg

theorem count_tex_map_mat (l : List ℕ) (x : ℕ) :
    (l.map DisposeEvent.mat).count (DisposeEvent.tex x) = 0 := by
  rw [List.count_eq_zero]
  intro h
  rcases List.mem_map.mp h with ⟨i, _, hi⟩
  exact DisposeEvent.noConfusion hi

theorem count_mat_map_tex (l : List ℕ) (i : ℕ) :
    (l.map DisposeEvent.tex).count (DisposeEvent.mat i) = 0 := by
  rw [List.count_eq_zero]
  intro h
  rcases List.mem_map.mp h with ⟨x, _, hx⟩
  exact DisposeEvent.noConfusion hx

theorem count_geom_map_tex (l : List ℕ) (g : ℕ) :
    (l.map DisposeEvent.tex).count (DisposeEvent.geom g) = 0 := by
  rw [List.count_eq_zero]
  intro h
  rcases List.mem_map.mp h with ⟨x, _, hx⟩
  exact DisposeEvent.noConfusion hx

theorem count_map_same {f : ℕ → DisposeEvent} (hf : Function.Injective f)
    (l : List ℕ) (hl : l.Nodup) (i : ℕ) :
    (l.map f).count (f i) = if i ∈ l then 1 else 0 := by
  rw [List.count_map_of_injective _ f hf]
  by_cases h : i ∈ l
  · simp [h, List.count_eq_one_of_mem hl h]
  · simp [h, List.count_eq_zero_of_not_mem h]

theorem geom_injective : Function.Injective DisposeEvent.geom := by
  intro a b h
  cases h
  rfl

theorem mat_injective : Function.Injective DisposeEvent.mat := by
  intro a b h
  cases h
  rfl

theorem tex_injective : Function.Injective DisposeEvent.tex := by
  intro a b h
  cases h
  rfl

theorem count_mat_flatMap (i : ℕ) :
    ∀ l : List MeshHandle,
      (l.flatMap meshDisposeEvents).count (DisposeEvent.mat i)
        = l.countP (fun m => m.materialId == some i) := by
  intro l
  induction l with
  | nil => rfl
  | cons m rest ih =>
    have hone : (meshDisposeEvents m).count (DisposeEvent.mat i)
        = if (m.materialId == some i) = true then 1 else 0 := by
      rcases hmat : m.materialId with _ | j
      · simp [meshDisposeEvents, hmat]
      · by_cases hj : j = i
        · subst hj
          simp [meshDisposeEvents, hmat]
        · simp [meshDisposeEvents, hmat, hj, List.count_cons, List.count_singleton]
    simp only [List.flatMap_cons, List.count_append, ih, List.countP_cons, hone]
    by_cases hp : (m.materialId == some i) = true <;> (simp [hp]; try omega)

theorem count_geom_flatMap (g : ℕ) :
    ∀ l : List MeshHandle,
      (l.flatMap meshDisposeEvents).count (DisposeEvent.geom g)
        = l.countP (fun m => m.geometryId == g) := by
  intro l
  induction l with
  | nil => rfl
  | cons m rest ih =>
    have hone : (meshDisposeEvents m).count (DisposeEvent.geom g)
        = if (m.geometryId == g) = true then 1 else 0 := by
      rcases hmat : m.materialId with _ | j <;> by_cases hg : m.geometryId = g <;>
        simp [meshDisposeEvents, hmat, hg, List.count_cons, List.count_singleton]
    simp only [List.flatMap_cons, List.count_append, ih, List.countP_cons, hone]
    by_cases hp : (m.geometryId == g) = true <;> (simp [hp]; try omega)

theorem count_tex_flatMap (x : ℕ) :
    ∀ l : List MeshHandle,
      (l.flatMap meshDisposeEvents).count (DisposeEvent.tex x) = 0 := by
  intro l
  induction l with
  | nil => rfl
  | cons m rest ih =>
    have hone : (meshDisposeEvents m).count (DisposeEvent.tex x) = 0 := by
      rcases hmat : m.materialId with _ | j <;>
        simp [meshDisposeEvents, hmat, List.count_cons, List.count_singleton]
    simp only [List.flatMap_cons, List.count_append, ih, hone]

/-- C8 (amended): tracking is dedup-preserving — every tracked handle is
registered at most once, also when the same component is tracked twice; a
disposeAll releases each geometry / material / texture of its category set
exactly once PLUS once more for every tracked mesh that references it (so a
mesh's material, which `trackResources` also registers in the material set,
is released twice, not exactly once); disposeAll always leaves the ledger
empty, and a second disposeAll on the emptied ledger performs no dispose
calls and raises no error. -/
theorem resource_ledger :
    (∀ (t : ResourceTracker) (c : TrackableComponent),
      TrackerNodup t → TrackerNodup (trackResources t c)) ∧
    (∀ t : ResourceTracker, t.materials.Nodup →
      ∀ i : ℕ, (disposeResources t).1.count (DisposeEvent.mat i)
        = (if i ∈ t.materials then 1 else 0)
          + t.meshes.countP (fun m => m.materialId == some i)) ∧
    (∀ t : ResourceTracker, t.geometries.Nodup →
      ∀ g : ℕ, (disposeResources t).1.count (DisposeEvent.geom g)
        = (if g ∈ t.geometries then 1 else 0)
          + t.meshes.countP (fun m => m.geometryId == g)) ∧
    (∀ t : ResourceTracker, t.textures.Nodup →
      ∀ x : ℕ, (disposeResources t).1.count (DisposeEvent.tex x)
        = (if x ∈ t.textures then 1 else 0)) ∧
    (∀ t : ResourceTracker, (disposeResources t).2 = emptyTracker) ∧
    disposeResources emptyTracker = ([], emptyTracker) := by
  refine ⟨fun t c h => trackResources_nodup c h, ?_, ?_, ?_, fun t => rfl, rfl⟩
  · intro t hnd i
    simp only [disposeResources, List.count_append]
    rw [count_mat_map_geom, count_map_same mat_injective t.materials hnd,
      count_mat_flatMap, count_mat_map_tex]
    omega
  · intro t hnd g
    simp only [disposeResources, List.count_append]
    rw [count_map_same geom_injective t.geometries hnd, count_geom_map_mat,
      count_geom_flatMap, count_geom_map_tex]
    omega
  · intro t hnd x
    simp only [disposeResources, List.count_append]
    rw [count_tex_map_geom, count_tex_map_mat, count_tex_flatMap,
      count_map_same tex_injective t.textures hnd]
    omega

/-- Component whose instanced mesh has geometry 2 and material 3. -/
def cexComponent : TrackableComponent :=
  { instancedMesh := some ⟨1, 2, some 3⟩ }

/-- Counterexample for C8 as stated: after tracking a component whose
instanced mesh carries material 3 (which `trackResources` registers both in
the material set and as the mesh's material), `disposeResources` emits TWO
dispose calls for material 3 — not exactly one. -/
theorem material_disposed_twice :
    (disposeResources (trackResources emptyTracker cexComponent)).1.count
      (DisposeEvent.mat 3) = 2 := by
  decide

/-- Witness for C8: the ledger facts applied to the concretely tracked
component. -/
theorem resource_ledger_witness :
    TrackerNodup (trackResources emptyTracker cexComponent) ∧
    ((disposeResources (trackResources emptyTracker cexComponent)).1.count
        (DisposeEvent.mat 3)
      = (if 3 ∈ (trackResources emptyTracker cexComponent).materials then 1 else 0)
        + (trackResources emptyTracker cexComponent).meshes.countP
            (fun m => m.materialId == some 3)) ∧
    (disposeResources (trackResources emptyTracker cexComponent)).2 = emptyTracker :=
  ⟨resource_ledger.1 emptyTracker cexComponent
      ⟨List.nodup_nil, List.nodup_nil, List.nodup_nil, List.nodup_nil⟩,
   resource_ledger.2.1 (trackResources emptyTracker cexComponent) (by decide) 3,
   resource_ledger.2.2.2.2.1 (trackResources emptyTracker cexComponent)⟩

/-! ## C9: hover exclusivity

Embedded from the `Interaction` class and the `InstancedHoverShader`
fragment shader.  Each instanced store's material carries the two hover
uniforms; the interaction state machine owns at most one hovered
(object, instance) pair and writes the uniforms of the object it
enters/leaves.  A fragment of instance `gl_InstanceID = n` reports the
hover highlight exactly when `isInstanceHovered` holds of the material's
uniforms and `n`. -/

structure HoverUniforms where
  uHovered : Bool
  uHoveredInstanceId : ℚ
deriving DecidableEq

/-- Fragment-shader test `uHovered && abs(vInstanceId - uHoveredInstanceId)
< 0.1` with `vInstanceId = float(gl_InstanceID)`. -/
def isInstanceHovered (u : HoverUniforms) (vInstanceId : ℚ) : Bool :=
  u.uHovered && decide (|vInstanceId - u.uHoveredInstanceId| < 1/10)

/-- Interaction state: the hovered (object, instance) pair and the hover
uniforms of each interactable instanced mesh's material, keyed by object
identity.  (Objects whose material lacks the uniforms are simply absent:
the highlight write is a no-op for them.) -/
structure InteractionState where
  hoveredObject : Option ℕ
  hoveredInstanceId : Option ℕ
  materials : AssocMap ℕ HoverUniforms
deriving DecidableEq

/-- `Interaction.updateInstancedMeshHover`: sets `uHovered` and
`uHoveredInstanceId = hovered ? instanceId : -1` on the object's material,
if that material (with its uniforms) exists. -/
def updateInstancedMeshHover (mats : AssocMap ℕ HoverUniforms) (obj : ℕ)
    (instanceId : ℕ) (hovered : Bool) : AssocMap ℕ HoverUniforms :=
  match AssocMap.getVal mats obj with
  | some _ => AssocMap.setVal mats obj
      ⟨hovered, if hovered then (instanceId : ℚ) else -1⟩
  | none => mats

/-- `Interaction.clearHoverState`. -/
def clearHoverState (st : InteractionState) : InteractionState :=
  match st.hoveredObject, st.hoveredInstanceId with
  | some o, some i =>
    { hoveredObject := none, hoveredInstanceId := none,
      materials := updateInstancedMeshHover st.materials o i false }
  | _, _ => st

/-- `Interaction.updateCursor` on one pointer-move sample: `hit` is the
nearest raycast result (object identity and `instanceId || 0`), or none. -/
def updateCursor (st : InteractionState) (hit : Option (ℕ × ℕ)) : InteractionState :=
  match hit with
  | some (obj, instanceId) =>
    if st.hoveredObject = some obj ∧ st.hoveredInstanceId = some instanceId then st
    else
      let st' := clearHoverState st
      { hoveredObject := some obj, hoveredInstanceId := some instanceId,
        materials := updateInstancedMeshHover st'.materials obj instanceId true }
  | none => clearHoverState st

def runPointerEvents (st : InteractionState) (events : List (Option (ℕ × ℕ))) :
    InteractionState :=
  events.foldl updateCursor st

/-- Hover well-formedness: the two hovered fields are set together, and any
material whose hover flag is up belongs to the hovered object and carries
the hovered instance id. -/
def HoverWF (st : InteractionState) : Prop :=
  ((st.hoveredObject = none ∧ st.hoveredInstanceId = none) ∨
    (∃ o i, st.hoveredObject = some o ∧ st.hoveredInstanceId = some i)) ∧
  (∀ o u, AssocMap.getVal st.materials o = some u → u.uHovered = true →
    ∃ i : ℕ, st.hoveredObject = some o ∧ st.hoveredInstanceId = some i ∧
      u.uHoveredInstanceId = (i : ℚ))

theorem hover_unique_aux {u : ℚ} {i j : ℕ}
    (hi : |(i : ℚ) - u| < 1/10) (hj : |(j : ℚ) - u| < 1/10) : i = j := by
  by_contra hne
  have h1 : ((i : ℚ) - j) = (((i : ℤ) - (j : ℤ) : ℤ) : ℚ) := by push_cast; ring
  have hz : (i : ℤ) - (j : ℤ) ≠ 0 := by
    intro h
    apply hne
    omega
  have h2 : (1 : ℚ) ≤ |(i : ℚ) - j| := by
    rw [h1, ← Int.cast_abs]
    exact_mod_cast Int.one_le_abs hz
  have h3 : |(i : ℚ) - j| ≤ |(i : ℚ) - u| + |(j : ℚ) - u| := by
    calc |(i : ℚ) - j| ≤ |(i : ℚ) - u| + |u - j| := abs_sub_le _ u _
    _ = |(i : ℚ) - u| + |(j : ℚ) - u| := by rw [abs_sub_comm u]
  linarith

theorem updateIMH_getVal_ne (mats : AssocMap ℕ HoverUniforms) (obj : ℕ)
    (instanceId : ℕ) (hovered : Bool) {o : ℕ} (h : obj ≠ o) :
    AssocMap.getVal (updateInstancedMeshHover mats obj instanceId hovered) o
      = AssocMap.getVal mats o := by
  unfold updateInstancedMeshHover
  rcases hv : AssocMap.getVal mats obj with _ | u
  · rfl
  · exact AssocMap.getVal_setVal_ne mats h _

theorem updateIMH_getVal_self (mats : AssocMap ℕ HoverUniforms) (obj : ℕ)
    (instanceId : ℕ) (hovered : Bool) {u : HoverUniforms}
    (h : AssocMap.getVal (updateInstancedMeshHover mats obj instanceId hovered) obj
      = some u) :
    AssocMap.getVal mats obj = none ∨
      u = ⟨hovered, if hovered then (instanceId : ℚ) else -1⟩ := by
  unfold updateInstancedMeshHover at h
  rcases hv : AssocMap.getVal mats obj with _ | u'
  · exact Or.inl rfl
  · right
    rw [hv] at h
    rw [AssocMap.getVal_setVal_self] at h
    exact (Option.some_injective _ h).symm

theorem clearHoverState_wf {st : InteractionState} (hwf : HoverWF st) :
    HoverWF (clearHoverState st) ∧
    (∀ o u, AssocMap.getVal (clearHoverState st).materials o = some u →
      u.uHovered = false) ∧
    (clearHoverState st).hoveredObject = none := by
  obtain ⟨halign, hmat⟩ := hwf
  rcases halign with ⟨h1, h2⟩ | ⟨o, i, h1, h2⟩
  · have hcl : clearHoverState st = st := by
      unfold clearHoverState
      rw [h1]
    rw [hcl]
    refine ⟨⟨Or.inl ⟨h1, h2⟩, hmat⟩, ?_, h1⟩
    intro o u hu
    cases hfl : u.uHovered with
    | false => rfl
    | true =>
      obtain ⟨i, ho, _, _⟩ := hmat o u hu hfl
      rw [h1] at ho
      exact Option.noConfusion ho
  · have hcl : clearHoverState st =
        { hoveredObject := none, hoveredInstanceId := none,
          materials := updateInstancedMeshHover st.materials o i false } := by
      unfold clearHoverState
      rw [h1, h2]
    rw [hcl]
    have hflags : ∀ o' u, AssocMap.getVal
        (updateInstancedMeshHover st.materials o i false) o' = some u →
        u.uHovered = false := by
      intro o' u hu
      by_cases ho' : o = o'
      · subst ho'
        rcases updateIMH_getVal_self st.materials o i false hu with hnone | hval
        · unfold updateInstancedMeshHover at hu
          rw [hnone] at hu
          rw [hnone] at hu
          exact Option.noConfusion hu
        · rw [hval]
      · rw [updateIMH_getVal_ne st.materials o i false ho'] at hu
        cases hfl : u.uHovered with
        | false => rfl
        | true =>
          obtain ⟨k, hok, _, _⟩ := hmat o' u hu hfl
          rw [h1] at hok
          have : o = o' := by
            injection hok
          exact absurd this ho'
    refine ⟨⟨Or.inl ⟨rfl, rfl⟩, ?_⟩, hflags, rfl⟩
    intro o' u hu hfl
    exact absurd hfl (by rw [hflags o' u hu]; exact Bool.false_ne_true)

theorem updateCursor_wf {st : InteractionState} (hwf : HoverWF st)
    (hit : Option (ℕ × ℕ)) : HoverWF (updateCursor st hit) := by
  match hit with
  | none => exact (clearHoverState_wf hwf).1
  | some (obj, instanceId) =>
    by_cases hsame : st.hoveredObject = some obj ∧ st.hoveredInstanceId = some instanceId
    · simpa [updateCursor, hsame] using hwf
    · obtain ⟨hclwf, hclflags, _⟩ := clearHoverState_wf hwf
      have hrw : updateCursor st (some (obj, instanceId)) =
          { hoveredObject := some obj, hoveredInstanceId := some instanceId,
            materials := updateInstancedMeshHover (clearHoverState st).materials
              obj instanceId true } := by
        simp [updateCursor, hsame]
      rw [hrw]
      refine ⟨Or.inr ⟨obj, instanceId, rfl, rfl⟩, ?_⟩
      intro o u hu hfl
      by_cases ho : obj = o
      · subst ho
        rcases updateIMH_getVal_self (clearHoverState st).materials obj instanceId true hu
          with hnone | hval
        · unfold updateInstancedMeshHover at hu
          rw [hnone] at hu
          rw [hnone] at hu
          exact Option.noConfusion hu
        · exact ⟨instanceId, rfl, rfl, by rw [hval]; simp⟩
      · rw [updateIMH_getVal_ne (clearHoverState st).materials obj instanceId true ho] at hu
        exact absurd hfl (by rw [hclflags o u hu]; exact Bool.false_ne_true)

/-- C9: within one store's material at most one instance can report the
hovered flag (the single hovered-instance uniform admits at most one
integer instance id within its 0.1 tolerance band); pointer-move processing
preserves hover well-formedness over any event sequence; a move with no hit
clears every hover flag; and a move with a hit sets the hovered pair to
that hit — after clearing the previous hover — so any flagged material is
the newly hovered object with the newly hovered instance id. -/
theorem hover_exclusivity :
    (∀ (u : HoverUniforms) (i j : ℕ),
      isInstanceHovered u (i : ℚ) = true → isInstanceHovered u (j : ℚ) = true →
      i = j) ∧
    (∀ (st : InteractionState) (events : List (Option (ℕ × ℕ))),
      HoverWF st → HoverWF (runPointerEvents st events)) ∧
    (∀ st : InteractionState, HoverWF st →
      ∀ o u, AssocMap.getVal (updateCursor st none).materials o = some u →
        u.uHovered = false) ∧
    (∀ (st : InteractionState) (obj instanceId : ℕ), HoverWF st →
      (updateCursor st (some (obj, instanceId))).hoveredObject = some obj ∧
      (updateCursor st (some (obj, instanceId))).hoveredInstanceId = some instanceId ∧
      (∀ o u,
        AssocMap.getVal (updateCursor st (some (obj, instanceId))).materials o = some u →
        u.uHovered = true → o = obj ∧ u.uHoveredInstanceId = (instanceId : ℚ))) := by
  refine ⟨?_, ?_, ?_, ?_⟩
  · intro u i j hi hj
    simp only [isInstanceHovered, Bool.and_eq_true, decide_eq_true_eq] at hi hj
    exact hover_unique_aux hi.2 hj.2
  · intro st events hwf
    induction events generalizing st with
    | nil => exact hwf
    | cons e rest ih => exact ih _ (updateCursor_wf hwf e)
  · intro st hwf o u hu
    exact (clearHoverState_wf hwf).2.1 o u hu
  · intro st obj instanceId hwf
    have hfields : (updateCursor st (some (obj, instanceId))).hoveredObject = some obj ∧
        (updateCursor st (some (obj, instanceId))).hoveredInstanceId = some instanceId := by
      by_cases hsame : st.hoveredObject = some obj ∧ st.hoveredInstanceId = some instanceId
      · constructor <;> simp [updateCursor, hsame]
      · constructor <;> simp [updateCursor, hsame]
    have hwf' := updateCursor_wf hwf (some (obj, instanceId))
    refine ⟨hfields.1, hfields.2, ?_⟩
    intro o u hu hfl
    obtain ⟨k, hok, hik, huk⟩ := hwf'.2 o u hu hfl
    rw [hfields.1] at hok
    rw [hfields.2] at hik
    have h1 : obj = o := by injection hok
    have h2 : instanceId = k := by injection hik
    subst h1
    subst h2
    exact ⟨rfl, huk⟩

def witInteraction : InteractionState :=
  { hoveredObject := none, hoveredInstanceId := none,
    materials := [(5, ⟨false, -1⟩)] }

theorem witInteraction_wf : HoverWF witInteraction := by
  refine ⟨Or.inl ⟨rfl, rfl⟩, ?_⟩
  intro o u hu hfl
  have hget : AssocMap.getVal witInteraction.materials o
      = if 5 = o then some ⟨false, -1⟩ else none := rfl
  rw [hget] at hu
  by_cases h : 5 = o
  · rw [if_pos h] at hu
    have := Option.some_injective _ hu
    rw [← this] at hfl
    exact Bool.noConfusion hfl
  · rw [if_neg h] at hu
    exact Option.noConfusion hu

/-- Witness for C9: the hover facts at a concrete material state and a
concrete three-event pointer sequence. -/
theorem hover_exclusivity_witness :
    ((3 : ℕ) = 3) ∧
    HoverWF (runPointerEvents witInteraction [some (5, 2), some (5, 7), none]) ∧
    (∀ o u, AssocMap.getVal (updateCursor witInteraction none).materials o = some u →
      u.uHovered = false) ∧
    ((updateCursor witInteraction (some (5, 2))).hoveredObject = some 5 ∧
      (updateCursor witInteraction (some (5, 2))).hoveredInstanceId = some 2 ∧
      (∀ o u,
        AssocMap.getVal (updateCursor witInteraction (some (5, 2))).materials o = some u →
        u.uHovered = true → o = 5 ∧ u.uHoveredInstanceId = ((2 : ℕ) : ℚ))) :=
  ⟨hover_exclusivity.1 ⟨true, 3⟩ 3 3
      (by simp [isInstanceHovered]) (by simp [isInstanceHovered]),
   hover_exclusivity.2.1 witInteraction [some (5, 2), some (5, 7), none] witInteraction_wf,
   hover_exclusivity.2.2.1 witInteraction witInteraction_wf,
   hover_exclusivity.2.2.2 witInteraction 5 2 witInteraction_wf⟩
